import Mathlib

/-!
Verification of the document-routing pipeline (classifier, JSON/email handlers,
shared SQLite-backed memory store) against its natural-language specification.

The shallow embedding below translates `src/memory/shared_memory.py`,
`src/agents/classifier_agent.py`, `src/agents/json_agent.py`,
`src/agents/email_agent.py` and `src/main.py` into Lean.  SQLite tables become
lists of rows kept in insertion (rowid) order; Python dicts become association
lists that preserve insertion order; JSON values become the inductive `JVal`.
External collaborators (file-format detection, intent detection, PDF/email
parsing, timestamps, uuid generation) are passed in as parameters, as the spec
declares them out of scope.
-/

set_option autoImplicit false

namespace DocRoute

/-- JSON-like values as produced by `json.load` / handed to `json.dumps`.
Numbers are modelled as rationals; Python's int/float distinction is collapsed
(every number in a claim-relevant input is integer-valued, where the two
renderings agree). -/
inductive JVal where
  | null : JVal
  | bool (b : Bool) : JVal
  | num (q : ℚ) : JVal
  | str (s : String) : JVal
  | arr (elems : List JVal) : JVal
  | obj (entries : List (String × JVal)) : JVal

/-- Rendering of a number for `json.dumps`: integers print bare, exactly as
Python prints ints.  (Non-integer rationals print as fractions; no
claim-relevant value is non-integral.) -/
def numToString (q : ℚ) : String :=
  if q.den = 1 then toString q.num else toString q.num ++ "/" ++ toString q.den

/-- JSON string escaping as done by `json.dumps` (quote and backslash; control
characters do not occur in any claim-relevant value). -/
def escapeJson (s : String) : String :=
  String.join (s.toList.map (fun c =>
    if c = '"' then "\\\"" else if c = '\\' then "\\\\" else String.singleton c))

mutual

/-- `json.dumps` with its default separators `", "` and `": "`, restricted to
the value fragment above. -/
def dumps : JVal → String
  | .null => "null"
  | .bool true => "true"
  | .bool false => "false"
  | .num q => numToString q
  | .str s => "\"" ++ escapeJson s ++ "\""
  | .arr elems => "[" ++ dumpsList elems ++ "]"
  | .obj entries => "\x7b" ++ dumpsEntries entries ++ "\x7d"

def dumpsList : List JVal → String
  | [] => ""
  | [v] => dumps v
  | v :: rest => dumps v ++ ", " ++ dumpsList rest

def dumpsEntries : List (String × JVal) → String
  | [] => ""
  | [(k, v)] => "\"" ++ escapeJson k ++ "\": " ++ dumps v
  | (k, v) :: rest => "\"" ++ escapeJson k ++ "\": " ++ dumps v ++ ", " ++ dumpsEntries rest

end

/-- Python `repr` of a string (single-quoted; quote/backslash escaped). -/
def pyReprStr (s : String) : String :=
  "'" ++ String.join (s.toList.map (fun c =>
    if c = '\'' then "\\'" else if c = '\\' then "\\\\" else String.singleton c)) ++ "'"

mutual

/-- Python `str()` applied to a parsed-JSON value (dicts print
`\x7b'k': v\x7d`, strings print repr-quoted, `True`/`False`/`None`). -/
def pyStr : JVal → String
  | .null => "None"
  | .bool true => "True"
  | .bool false => "False"
  | .num q => numToString q
  | .str s => pyReprStr s
  | .arr elems => "[" ++ pyStrList elems ++ "]"
  | .obj entries => "\x7b" ++ pyStrEntries entries ++ "\x7d"

def pyStrList : List JVal → String
  | [] => ""
  | [v] => pyStr v
  | v :: rest => pyStr v ++ ", " ++ pyStrList rest

def pyStrEntries : List (String × JVal) → String
  | [] => ""
  | [(k, v)] => pyReprStr k ++ ": " ++ pyStr v
  | (k, v) :: rest => pyReprStr k ++ ": " ++ pyStr v ++ ", " ++ pyStrEntries rest

end

/-- Python truthiness of a parsed-JSON value. -/
def pyTruthy : JVal → Bool
  | .null => false
  | .bool b => b
  | .num q => !(decide (q = 0))
  | .str s => !(s == "")
  | .arr elems => !elems.isEmpty
  | .obj entries => !entries.isEmpty

/-! ## The shared memory store (`src/memory/shared_memory.py`)

The SQLite database is modelled as three lists of rows, each kept in rowid
(insertion) order, exactly the order a full-table `SELECT` returns.  The
`sqlite3` connection never enables `PRAGMA foreign_keys`, so the declared
foreign keys on `extracted_fields` and `routing_log` are not enforced, and an
SQL `UPDATE` on a missing `thread_id` simply matches zero rows: the operations
below are total functions on the store. -/

/-- A row of the `memory` table. -/
structure ThreadRow where
  thread_id : String
  input_source : String
  timestamp : String
  format : String
  intent : String
  status : String
  metadata : String

/-- A row of the `extracted_fields` table (the AUTOINCREMENT id is the list
position). -/
structure FieldRow where
  thread_id : String
  field_name : String
  field_value : String

/-- A row of the `routing_log` table. -/
structure RoutingRow where
  thread_id : String
  timestamp : String
  from_agent : String
  to_agent : String
  reason : String

/-- The whole database. -/
structure Store where
  memory : List ThreadRow
  fields : List FieldRow
  routing : List RoutingRow

/-- The freshly initialised database. -/
def emptyStore : Store := ⟨[], [], []⟩

/-- Whether a `memory` row with this `thread_id` exists. -/
def threadExists (s : Store) (tid : String) : Bool :=
  s.memory.any (fun r => r.thread_id == tid)

/-- `SharedMemory.create_thread`: inserts the initial row with status
`"started"` and metadata `"\x7b\x7d"`.  The uuid `thread_id` and the timestamp are
parameters (they are nondeterministic in the code). -/
def create_thread (s : Store) (input_source format_type intent : String)
    (thread_id timestamp : String) : Store :=
  { s with memory :=
      s.memory ++ [⟨thread_id, input_source, timestamp, format_type, intent, "started", "\x7b\x7d"⟩] }

/-- `SharedMemory.log_routing`: unconditional INSERT into `routing_log`. -/
def log_routing (s : Store) (tid timestamp from_agent to_agent reason : String) : Store :=
  { s with routing := s.routing ++ [⟨tid, timestamp, from_agent, to_agent, reason⟩] }

/-- The TEXT actually written for a field value: strings are stored verbatim,
everything else is passed through `json.dumps`
(`if not isinstance(field_value, str): field_value = json.dumps(field_value)`). -/
def storedText (v : JVal) : String :=
  match v with
  | .str t => t
  | _ => dumps v

/-- `SharedMemory.store_extracted_field`: unconditional INSERT into
`extracted_fields`. -/
def store_extracted_field (s : Store) (tid field_name : String) (v : JVal) : Store :=
  { s with fields := s.fields ++ [⟨tid, field_name, storedText v⟩] }

/-- `SharedMemory.update_status`: `UPDATE memory SET status = ? WHERE
thread_id = ?` — rewrites every matching row, touches nothing else. -/
def update_status (s : Store) (tid status : String) : Store :=
  { s with memory := s.memory.map (fun r =>
      if r.thread_id == tid then { r with status := status } else r) }

/-- `SharedMemory.update_metadata`: `UPDATE memory SET metadata = ? WHERE
thread_id = ?` with `json.dumps(metadata)` — the stored metadata text is
replaced wholesale by the serialised argument. -/
def update_metadata (s : Store) (tid : String) (md : List (String × JVal)) : Store :=
  { s with memory := s.memory.map (fun r =>
      if r.thread_id == tid then { r with metadata := dumps (JVal.obj md) } else r) }

/-- Insertion into a Python dict built by a comprehension: an existing key is
overwritten in place, a new key is appended. -/
def dictInsert (d : List (String × String)) (k v : String) : List (String × String) :=
  if d.any (fun p => p.1 == k) then
    d.map (fun p => if p.1 == k then (p.1, v) else p)
  else d ++ [(k, v)]

/-- The record assembled by `SharedMemory.get_thread_info`.  (The code also
runs `json.loads` on the metadata text before returning; no claim depends on
the parsed form, so the stored text is exposed.) -/
structure ThreadInfo where
  row : ThreadRow
  extracted_fields : List (String × String)
  routing_history : List RoutingRow

/-- `SharedMemory.get_thread_info`: `dict(cursor.fetchone())` raises on a
missing thread (modelled as `none`); the fields dict is built by a
comprehension over the SELECT in rowid order, so a later row overwrites an
earlier one with the same `field_name`. -/
def get_thread_info (s : Store) (tid : String) : Option ThreadInfo :=
  match s.memory.find? (fun r => r.thread_id == tid) with
  | none => none
  | some row =>
      let fieldRows := s.fields.filter (fun f => f.thread_id == tid)
      let fieldsDict := fieldRows.foldl (fun d f => dictInsert d f.field_name f.field_value) []
      let routing := s.routing.filter (fun r => r.thread_id == tid)
      some ⟨row, fieldsDict, routing⟩

/-- The status column of the (first) row for `tid`. -/
def statusOf (s : Store) (tid : String) : Option String :=
  (s.memory.find? (fun r => r.thread_id == tid)).map (fun r => r.status)

/-- The metadata column of the (first) row for `tid`. -/
def metadataOf (s : Store) (tid : String) : Option String :=
  (s.memory.find? (fun r => r.thread_id == tid)).map (fun r => r.metadata)

/-! ## Store lemmas -/

/-- An UPDATE whose WHERE clause matches no row leaves the table unchanged. -/
theorem map_row_ite_of_not_any (l : List ThreadRow) (tid : String)
    (g : ThreadRow → ThreadRow)
    (h : l.any (fun r => r.thread_id == tid) = false) :
    l.map (fun r => if r.thread_id == tid then g r else r) = l := by
  induction l with
  | nil => rfl
  | cons a as ih =>
    simp only [List.any_cons, Bool.or_eq_false_iff] at h
    have h1 : ¬ ((a.thread_id == tid) = true) := by simp [h.1]
    rw [List.map_cons, if_neg h1, ih h.2]

/-- A matching row exists whenever `threadExists` holds. -/
theorem exists_find?_of_threadExists {s : Store} {tid : String}
    (h : threadExists s tid = true) :
    ∃ row, s.memory.find? (fun r => r.thread_id == tid) = some row := by
  rcases List.any_eq_true.mp h with ⟨x, hx, hpx⟩
  have hs : (s.memory.find? (fun r => r.thread_id == tid)).isSome := by
    rw [List.find?_isSome]
    exact ⟨x, hx, hpx⟩
  exact Option.isSome_iff_exists.mp hs

/-- `find?` for a `thread_id` on a cons whose head matches. -/
theorem find?_tid_cons_pos (tid : String) (a : ThreadRow) (l : List ThreadRow)
    (h : (a.thread_id == tid) = true) :
    List.find? (fun r => r.thread_id == tid) (a :: l) = some a := by
  simp [List.find?, h]

/-- `find?` for a `thread_id` on a cons whose head does not match. -/
theorem find?_tid_cons_neg (tid : String) (a : ThreadRow) (l : List ThreadRow)
    (h : (a.thread_id == tid) = false) :
    List.find? (fun r => r.thread_id == tid) (a :: l)
      = List.find? (fun r => r.thread_id == tid) l := by
  simp [List.find?, h]

/-- An UPDATE that rewrites matching rows without touching `thread_id`
commutes with `find?` for that `thread_id`. -/
theorem find?_map_ite (l : List ThreadRow) (tid : String) (g : ThreadRow → ThreadRow)
    (hg : ∀ r, (g r).thread_id = r.thread_id) :
    (l.map (fun r => if r.thread_id == tid then g r else r)).find?
        (fun r => r.thread_id == tid)
      = (l.find? (fun r => r.thread_id == tid)).map
          (fun r => if r.thread_id == tid then g r else r) := by
  induction l with
  | nil => rfl
  | cons a as ih =>
    by_cases ha : (a.thread_id == tid) = true
    · have hfa : (if (a.thread_id == tid) = true then g a else a) = g a := if_pos ha
      have hpa : ((if (a.thread_id == tid) = true then g a else a).thread_id == tid) = true := by
        rw [hfa, hg a]; exact ha
      rw [List.map_cons, find?_tid_cons_pos tid _ _ hpa, find?_tid_cons_pos tid _ _ ha]
      rfl
    · have ha' : (a.thread_id == tid) = false := Bool.eq_false_iff.mpr ha
      have hpa : ((if (a.thread_id == tid) = true then g a else a).thread_id == tid) = false := by
        rw [if_neg ha]; exact ha'
      rw [List.map_cons, find?_tid_cons_neg tid _ _ hpa, find?_tid_cons_neg tid _ _ ha']
      exact ih

/-- `update_status` leaves `threadExists` unchanged. -/
theorem threadExists_update_status (s : Store) (tid st tid' : String) :
    threadExists (update_status s tid st) tid' = threadExists s tid' := by
  unfold threadExists update_status
  rw [List.any_map]
  congr 1
  funext r
  by_cases hr : (r.thread_id == tid) = true
  · show ((if (r.thread_id == tid) = true then _ else r).thread_id == tid') = _
    rw [if_pos hr]
  · show ((if (r.thread_id == tid) = true then _ else r).thread_id == tid') = _
    rw [if_neg hr]

/-- `update_metadata` leaves `threadExists` unchanged. -/
theorem threadExists_update_metadata (s : Store) (tid : String)
    (md : List (String × JVal)) (tid' : String) :
    threadExists (update_metadata s tid md) tid' = threadExists s tid' := by
  unfold threadExists update_metadata
  rw [List.any_map]
  congr 1
  funext r
  by_cases hr : (r.thread_id == tid) = true
  · show ((if (r.thread_id == tid) = true then _ else r).thread_id == tid') = _
    rw [if_pos hr]
  · show ((if (r.thread_id == tid) = true then _ else r).thread_id == tid') = _
    rw [if_neg hr]

/-- List-level form of `statusOf_update_status`. -/
theorem find?_status_after_update (l : List ThreadRow) (tid st : String)
    (row : ThreadRow) (hrow : l.find? (fun r => r.thread_id == tid) = some row) :
    Option.map (fun r => r.status)
      ((l.map (fun r => if r.thread_id == tid then { r with status := st } else r)).find?
        (fun r => r.thread_id == tid)) = some st := by
  have hp := List.find?_some hrow
  rw [find?_map_ite l tid (fun r => { r with status := st }) (fun r => rfl), hrow]
  show some ((if (row.thread_id == tid) = true then { row with status := st } else row).status)
      = some st
  rw [if_pos hp]

/-- `update_status` on an existing thread sets the status column. -/
theorem statusOf_update_status {s : Store} {tid : String} (st : String)
    (h : threadExists s tid = true) :
    statusOf (update_status s tid st) tid = some st := by
  obtain ⟨row, hrow⟩ := exists_find?_of_threadExists h
  exact find?_status_after_update s.memory tid st row hrow

/-- List-level form of `metadataOf_update_metadata`. -/
theorem find?_metadata_after_update (l : List ThreadRow) (tid md : String)
    (row : ThreadRow) (hrow : l.find? (fun r => r.thread_id == tid) = some row) :
    Option.map (fun r => r.metadata)
      ((l.map (fun r => if r.thread_id == tid then { r with metadata := md } else r)).find?
        (fun r => r.thread_id == tid)) = some md := by
  have hp := List.find?_some hrow
  rw [find?_map_ite l tid (fun r => { r with metadata := md }) (fun r => rfl), hrow]
  show some ((if (row.thread_id == tid) = true then { row with metadata := md } else row).metadata)
      = some md
  rw [if_pos hp]

/-- `update_metadata` on an existing thread sets the metadata column. -/
theorem metadataOf_update_metadata {s : Store} {tid : String}
    (md : List (String × JVal)) (h : threadExists s tid = true) :
    metadataOf (update_metadata s tid md) tid = some (dumps (JVal.obj md)) := by
  obtain ⟨row, hrow⟩ := exists_find?_of_threadExists h
  exact find?_metadata_after_update s.memory tid (dumps (JVal.obj md)) row hrow

/-- `lookup` skips a head entry with a different key. -/
theorem lookup_cons_of_ne {β : Type} (a k : String) (v : β) (es : List (String × β))
    (h : (a == k) = false) :
    List.lookup a ((k, v) :: es) = List.lookup a es := by
  simp [List.lookup, h]

/-- Overwriting an existing key of a Python dict: the lookup returns the new
value. -/
theorem lookup_map_overwrite (d : List (String × String)) (k v : String)
    (h : d.any (fun p => p.1 == k) = true) :
    (d.map (fun p => if p.1 == k then (p.1, v) else p)).lookup k = some v := by
  induction d with
  | nil => simp at h
  | cons p ds ih =>
    obtain ⟨k1, v1⟩ := p
    by_cases hp : ((k1, v1).1 == k) = true
    · have hk : k = k1 := (beq_iff_eq.mp hp).symm
      subst hk
      rw [List.map_cons, if_pos hp]
      simp [List.lookup]
    · have hp' : ((k1, v1).1 == k) = false := Bool.eq_false_iff.mpr hp
      have hk : (k == k1) = false :=
        beq_eq_false_iff_ne.mpr (Ne.symm (beq_eq_false_iff_ne.mp hp'))
      simp only [List.any_cons, hp', Bool.false_or] at h
      rw [List.map_cons, if_neg hp, lookup_cons_of_ne k k1 v1 _ hk]
      exact ih h

/-- Appending a fresh key to a Python dict: the lookup returns the new value. -/
theorem lookup_append_single (d : List (String × String)) (k v : String)
    (h : d.any (fun p => p.1 == k) = false) :
    (d ++ [(k, v)]).lookup k = some v := by
  induction d with
  | nil => simp [List.lookup]
  | cons p ds ih =>
    obtain ⟨k1, v1⟩ := p
    simp only [List.any_cons, Bool.or_eq_false_iff] at h
    have hk : (k == k1) = false :=
      beq_eq_false_iff_ne.mpr (Ne.symm (beq_eq_false_iff_ne.mp h.1))
    rw [List.cons_append, lookup_cons_of_ne k k1 v1 _ hk]
    exact ih h.2

/-- Looking up the key just written into a Python dict yields the value just
written. -/
theorem lookup_dictInsert_self (d : List (String × String)) (k v : String) :
    (dictInsert d k v).lookup k = some v := by
  unfold dictInsert
  by_cases hany : d.any (fun p => p.1 == k) = true
  · rw [if_pos hany]
    exact lookup_map_overwrite d k v hany
  · rw [if_neg hany]
    exact lookup_append_single d k v (Bool.eq_false_iff.mpr hany)

/-- `get_thread_info` spelled out once a matching row is known. -/
theorem get_thread_info_eq (s : Store) (tid : String) (row : ThreadRow)
    (hrow : s.memory.find? (fun r => r.thread_id == tid) = some row) :
    get_thread_info s tid = some
      ⟨row,
       (s.fields.filter (fun f => f.thread_id == tid)).foldl
         (fun d f => dictInsert d f.field_name f.field_value) [],
       s.routing.filter (fun r => r.thread_id == tid)⟩ := by
  unfold get_thread_info
  rw [hrow]

/-! ## Claims C1–C4: the store's write/read contract -/

/-- Modelled from the spec: "`update_metadata(thread_id, patch)` merges `patch`
into the existing metadata mapping, last-write-wins per key".  This is the
Python-dict merge the spec describes (keys of `m` keep their position, patched
values win, new keys of `p` are appended); the code has no such merge, so this
definition exists only to compare the spec's words against the code. -/
def specMergeMetadata (m p : List (String × JVal)) : List (String × JVal) :=
  m.map (fun e => match p.lookup e.1 with
    | some v => (e.1, v)
    | none => e)
  ++ p.filter (fun q => !(m.any (fun e => e.1 == q.1)))

/-- C1 counterexample: against the non-existent thread `"ghost"`,
`store_extracted_field` and `log_routing` silently insert rows that reference
the missing thread (orphans), and `update_status`/`update_metadata` silently
leave the store unchanged — nothing fails with `UnknownThreadError` (the code
defines no such error). -/
theorem c1_counterexample :
    threadExists emptyStore "ghost" = false ∧
    (store_extracted_field emptyStore "ghost" "f" (JVal.str "v")).fields
      = [⟨"ghost", "f", "v"⟩] ∧
    threadExists (store_extracted_field emptyStore "ghost" "f" (JVal.str "v")) "ghost" = false ∧
    (log_routing emptyStore "ghost" "ts" "a" "b" "why").routing
      = [⟨"ghost", "ts", "a", "b", "why"⟩] ∧
    update_status emptyStore "ghost" "completed" = emptyStore ∧
    update_metadata emptyStore "ghost" [("k", JVal.num 1)] = emptyStore :=
  ⟨rfl, rfl, rfl, rfl, rfl, rfl⟩

/-- C1 (amended): for a non-existent `thread_id`, none of the four write
operations fails: `store_extracted_field` and `log_routing` append orphan
records that reference the missing thread, while `update_status` and
`update_metadata` silently leave the store unchanged. -/
theorem c1_amended (s : Store) (tid : String) (h : threadExists s tid = false)
    (name : String) (v : JVal) (ts fa ta reason st : String)
    (md : List (String × JVal)) :
    (store_extracted_field s tid name v).fields
      = s.fields ++ [⟨tid, name, storedText v⟩] ∧
    threadExists (store_extracted_field s tid name v) tid = false ∧
    (log_routing s tid ts fa ta reason).routing
      = s.routing ++ [⟨tid, ts, fa, ta, reason⟩] ∧
    threadExists (log_routing s tid ts fa ta reason) tid = false ∧
    update_status s tid st = s ∧
    update_metadata s tid md = s := by
  obtain ⟨m, f, rt⟩ := s
  refine ⟨rfl, h, rfl, h, ?_, ?_⟩
  · show Store.mk
        (m.map (fun r => if r.thread_id == tid then { r with status := st } else r)) f rt
      = Store.mk m f rt
    rw [map_row_ite_of_not_any m tid _ h]
  · show Store.mk
        (m.map (fun r =>
          if r.thread_id == tid then { r with metadata := dumps (JVal.obj md) } else r)) f rt
      = Store.mk m f rt
    rw [map_row_ite_of_not_any m tid _ h]

/-- C1 witness: the amended statement instantiated at the empty store. -/
theorem c1_amended_witness :
    threadExists emptyStore "ghost" = false ∧
    ((store_extracted_field emptyStore "ghost" "n" (JVal.num 3)).fields
        = emptyStore.fields ++ [⟨"ghost", "n", storedText (JVal.num 3)⟩] ∧
      threadExists (store_extracted_field emptyStore "ghost" "n" (JVal.num 3)) "ghost" = false ∧
      (log_routing emptyStore "ghost" "ts" "classifier_agent" "email_agent" "why").routing
        = emptyStore.routing ++ [⟨"ghost", "ts", "classifier_agent", "email_agent", "why"⟩] ∧
      threadExists (log_routing emptyStore "ghost" "ts" "classifier_agent" "email_agent" "why")
          "ghost" = false ∧
      update_status emptyStore "ghost" "completed" = emptyStore ∧
      update_metadata emptyStore "ghost" [] = emptyStore) :=
  ⟨rfl, c1_amended emptyStore "ghost" rfl "n" (JVal.num 3)
    "ts" "classifier_agent" "email_agent" "why" "completed" []⟩

/-- A store holding one thread `"t1"` whose metadata is `\x7b"a": 1\x7d`. -/
def c2StoreBefore : Store :=
  update_metadata
    (create_thread emptyStore "doc.json" "json" "invoice" "t1" "ts0")
    "t1" [("a", JVal.num 1)]

/-- C2 counterexample: with stored metadata `M = \x7b"a": 1\x7d` and patch
`P = \x7b"b": 2\x7d`, `update_metadata` leaves `\x7b"b": 2\x7d` — not the merge
`\x7b"a": 1, "b": 2\x7d`; the key `"a"` absent from the patch does not retain its
value, it is discarded. -/
theorem c2_counterexample :
    metadataOf c2StoreBefore "t1" = some (dumps (JVal.obj [("a", JVal.num 1)])) ∧
    metadataOf (update_metadata c2StoreBefore "t1" [("b", JVal.num 2)]) "t1"
      = some "\x7b\"b\": 2\x7d" ∧
    dumps (JVal.obj (specMergeMetadata [("a", JVal.num 1)] [("b", JVal.num 2)]))
      = "\x7b\"a\": 1, \"b\": 2\x7d" ∧
    metadataOf (update_metadata c2StoreBefore "t1" [("b", JVal.num 2)]) "t1"
      ≠ some (dumps (JVal.obj (specMergeMetadata [("a", JVal.num 1)] [("b", JVal.num 2)]))) := by
  refine ⟨rfl, rfl, rfl, ?_⟩
  intro hcontra
  exact absurd hcontra (by decide)

/-- C2 (amended): `update_metadata` on an existing thread replaces the stored
metadata wholesale with the serialisation of the patch; keys absent from the
patch are discarded, not retained. -/
theorem c2_amended (s : Store) (tid : String) (P : List (String × JVal))
    (h : threadExists s tid = true) :
    metadataOf (update_metadata s tid P) tid = some (dumps (JVal.obj P)) :=
  metadataOf_update_metadata P h

/-- C2 witness: the amended statement instantiated at a one-thread store. -/
theorem c2_amended_witness :
    threadExists c2StoreBefore "t1" = true ∧
    metadataOf (update_metadata c2StoreBefore "t1" [("b", JVal.num 2)]) "t1"
      = some (dumps (JVal.obj [("b", JVal.num 2)])) :=
  ⟨rfl, c2_amended c2StoreBefore "t1" [("b", JVal.num 2)] rfl⟩

/-- C3: storing the same field name twice appends two rows — the first record
is neither updated nor deleted — and the `extracted_fields` dict built by
`get_thread_info` maps the name to the latest stored value (the second value's
stored text). -/
theorem c3_append_only_latest_wins (s : Store) (tid : String)
    (h : threadExists s tid = true) (name : String) (v1 v2 : JVal) :
    (store_extracted_field (store_extracted_field s tid name v1) tid name v2).fields
      = s.fields ++ [⟨tid, name, storedText v1⟩, ⟨tid, name, storedText v2⟩] ∧
    ∃ info,
      get_thread_info
          (store_extracted_field (store_extracted_field s tid name v1) tid name v2) tid
        = some info ∧
      info.extracted_fields.lookup name = some (storedText v2) := by
  constructor
  · show (s.fields ++ [⟨tid, name, storedText v1⟩]) ++ [⟨tid, name, storedText v2⟩] = _
    rw [List.append_assoc]
    rfl
  · obtain ⟨row, hrow⟩ := exists_find?_of_threadExists h
    refine ⟨_, get_thread_info_eq _ tid row hrow, ?_⟩
    show ((((s.fields ++ [(⟨tid, name, storedText v1⟩ : FieldRow)])
              ++ [(⟨tid, name, storedText v2⟩ : FieldRow)]).filter
            (fun (f : FieldRow) => f.thread_id == tid)).foldl
          (fun d (f : FieldRow) => dictInsert d f.field_name f.field_value) []).lookup name
        = some (storedText v2)
    rw [List.filter_append, List.filter_append]
    simp only [List.filter_cons, List.filter_nil, beq_self_eq_true, if_true]
    rw [List.foldl_append]
    exact lookup_dictInsert_self _ _ _

/-- A one-thread store used to instantiate C3 and C4. -/
def c3Store : Store := create_thread emptyStore "in.json" "json" "invoice" "t3" "ts"

/-- C3 witness: the statement instantiated with field `"amount"` stored twice. -/
theorem c3_witness :
    threadExists c3Store "t3" = true ∧
    ((store_extracted_field (store_extracted_field c3Store "t3" "amount" (JVal.str "10"))
          "t3" "amount" (JVal.str "20")).fields
        = c3Store.fields ++ [⟨"t3", "amount", storedText (JVal.str "10")⟩,
            ⟨"t3", "amount", storedText (JVal.str "20")⟩] ∧
      ∃ info,
        get_thread_info
            (store_extracted_field (store_extracted_field c3Store "t3" "amount" (JVal.str "10"))
              "t3" "amount" (JVal.str "20")) "t3"
          = some info ∧
        info.extracted_fields.lookup "amount" = some (storedText (JVal.str "20"))) :=
  ⟨rfl, c3_append_only_latest_wins c3Store "t3" rfl "amount" (JVal.str "10") (JVal.str "20")⟩

/-- C4 counterexample: the plain string `"[1, 2]"` and the structured array
`[1, 2]` produce the *same* stored text, so the store-then-read composition is
not injective and no deserialisation can be its inverse — a stored plain
string is not distinguishable from a stored structured value whose
serialisation is the same text. -/
theorem c4_counterexample :
    storedText (JVal.str "[1, 2]") = storedText (JVal.arr [JVal.num 1, JVal.num 2]) ∧
    JVal.str "[1, 2]" ≠ JVal.arr [JVal.num 1, JVal.num 2] ∧
    ¬ ∃ g : String → JVal, ∀ v : JVal, g (storedText v) = v := by
  refine ⟨rfl, ?_, ?_⟩
  · intro hcontra
    exact JVal.noConfusion hcontra
  · rintro ⟨g, hg⟩
    have h1 := hg (JVal.str "[1, 2]")
    have h2 := hg (JVal.arr [JVal.num 1, JVal.num 2])
    have he : storedText (JVal.str "[1, 2]")
        = storedText (JVal.arr [JVal.num 1, JVal.num 2]) := rfl
    rw [he] at h1
    exact JVal.noConfusion (h1.symm.trans h2)

/-- C4 (amended): reading back a just-stored field returns exactly its stored
text — the JSON serialisation for non-strings and the string itself verbatim
for strings — so reconstruction is ambiguous exactly when a stored string's
text coincides with a serialisation. -/
theorem c4_amended (s : Store) (tid name : String) (v : JVal)
    (h : threadExists s tid = true) :
    (∃ info,
      get_thread_info (store_extracted_field s tid name v) tid = some info ∧
      info.extracted_fields.lookup name = some (storedText v)) ∧
    (∀ t : String, storedText (JVal.str t) = t) := by
  constructor
  · obtain ⟨row, hrow⟩ := exists_find?_of_threadExists h
    refine ⟨_, get_thread_info_eq _ tid row hrow, ?_⟩
    show (((s.fields ++ [(⟨tid, name, storedText v⟩ : FieldRow)]).filter
            (fun (f : FieldRow) => f.thread_id == tid)).foldl
          (fun d (f : FieldRow) => dictInsert d f.field_name f.field_value) []).lookup name
        = some (storedText v)
    rw [List.filter_append]
    simp only [List.filter_cons, List.filter_nil, beq_self_eq_true, if_true]
    rw [List.foldl_append]
    exact lookup_dictInsert_self _ _ _
  · intro t
    rfl

/-- C4 witness: the amended statement instantiated with a stored array. -/
theorem c4_amended_witness :
    threadExists c3Store "t3" = true ∧
    ((∃ info,
        get_thread_info
            (store_extracted_field c3Store "t3" "nested" (JVal.arr [JVal.num 1, JVal.num 2]))
            "t3"
          = some info ∧
        info.extracted_fields.lookup "nested"
          = some (storedText (JVal.arr [JVal.num 1, JVal.num 2]))) ∧
      (∀ t : String, storedText (JVal.str t) = t)) :=
  ⟨rfl, c4_amended c3Store "t3" "nested" (JVal.arr [JVal.num 1, JVal.num 2]) rfl⟩

/-! ## JSON agent (`src/agents/json_agent.py`): schema registry, data quality,
field extraction -/

/-- A `type` entry of a schema property: a single type name or a list of
them (`isinstance(expected_type, list)` in `_check_data_quality`). -/
inductive TypeSpec where
  | one (t : String) : TypeSpec
  | many (ts : List String) : TypeSpec

/-- The allowed type names, mirroring the `valid_types` normalisation. -/
def TypeSpec.validTypes : TypeSpec → List String
  | .one t => [t]
  | .many ts => ts

/-- Python `str()`/f-string rendering of the `expected_type` value in the
anomaly `issue` message (a bare name for a string, repr-list otherwise). -/
def TypeSpec.pyText : TypeSpec → String
  | .one t => t
  | .many ts => "[" ++ String.intercalate ", " (ts.map pyReprStr) ++ "]"

/-- A schema of the registry, restricted to the vocabulary the code reads:
`type`, `required`, `properties` and (inside a property) `items`. -/
inductive JSchema where
  | mk (typeSpec : Option TypeSpec) (required : Option (List String))
      (properties : Option (List (String × JSchema)))
      (items : Option JSchema) : JSchema

def JSchema.typeSpec : JSchema → Option TypeSpec
  | .mk t _ _ _ => t

def JSchema.required : JSchema → Option (List String)
  | .mk _ r _ _ => r

def JSchema.properties : JSchema → Option (List (String × JSchema))
  | .mk _ _ p _ => p

def JSchema.items : JSchema → Option JSchema
  | .mk _ _ _ i => i

/-- A leaf property spec carrying only a `type`. -/
def tleaf (ts : TypeSpec) : JSchema := .mk (some ts) none none none

/-- The `invoice` schema of `_initialize_default_schemas`. -/
def invoiceSchema : JSchema :=
  .mk (some (.one "object"))
    (some ["invoice_number", "date", "total_amount"])
    (some [
      ("invoice_number", tleaf (.one "string")),
      ("date", tleaf (.one "string")),
      ("total_amount", tleaf (.many ["number", "string"])),
      ("currency", tleaf (.one "string")),
      ("vendor", tleaf (.one "object")),
      ("customer", tleaf (.one "object")),
      ("items", tleaf (.one "array")),
      ("payment_terms", tleaf (.one "string"))])
    none

/-- The `items` subschema of the `rfq` schema. -/
def rfqItemSchema : JSchema :=
  .mk (some (.one "object"))
    (some ["description", "quantity"])
    (some [
      ("description", tleaf (.one "string")),
      ("quantity", tleaf (.many ["number", "string"])),
      ("unit", tleaf (.one "string"))])
    none

/-- The `rfq` schema of `_initialize_default_schemas`. -/
def rfqSchema : JSchema :=
  .mk (some (.one "object"))
    (some ["rfq_number", "date", "items"])
    (some [
      ("rfq_number", tleaf (.one "string")),
      ("date", tleaf (.one "string")),
      ("customer", tleaf (.one "object")),
      ("items", .mk (some (.one "array")) none none (some rfqItemSchema)),
      ("delivery_date", tleaf (.one "string")),
      ("contact_person", tleaf (.one "string"))])
    none

/-- The `complaint` schema of `_initialize_default_schemas`. -/
def complaintSchema : JSchema :=
  .mk (some (.one "object"))
    (some ["type", "customer_id", "message"])
    (some [
      ("type", tleaf (.one "string")),
      ("customer_id", tleaf (.one "string")),
      ("message", tleaf (.one "string")),
      ("severity", tleaf (.one "string")),
      ("category", tleaf (.one "string")),
      ("date", tleaf (.one "string"))])
    none

/-- The default schema registry `self.schemas`. -/
def defaultSchemas : List (String × JSchema) :=
  [("invoice", invoiceSchema), ("rfq", rfqSchema), ("complaint", complaintSchema)]

/-- `JSONAgent._get_json_type`.  The Python `elif` chain tests `bool` before
`int`/`float`, so booleans classify as `boolean`, never as `number`; the
separate constructors of `JVal` encode the same distinction. -/
def getJsonType : JVal → String
  | .null => "null"
  | .bool _ => "boolean"
  | .num _ => "number"
  | .str _ => "string"
  | .arr _ => "array"
  | .obj _ => "object"

/-- Membership test for a key of a parsed JSON object (`field in json_content`). -/
def hasKey (kvs : List (String × JVal)) (k : String) : Bool :=
  kvs.any (fun e => e.1 == k)

/-- One entry of the `anomalous_fields` list. -/
structure Anomaly where
  field : String
  issue : String
  value : String

/-- The `missing_fields` loop of `_check_data_quality` (`if 'required' in
schema: for field in schema['required']: if field not in json_content:
append`). -/
def missingOf (kvs : List (String × JVal)) : Option (List String) → List String
  | none => []
  | some req => req.filter (fun f => !(hasKey kvs f))

/-- One iteration of the anomaly loop of `_check_data_quality`: a property is
reported iff it is present in the content, carries a `type`, and the value's
runtime type is not among the allowed types. -/
def anomFn (kvs : List (String × JVal)) (fs : String × JSchema) : Option Anomaly :=
  match kvs.lookup fs.1 with
  | none => none
  | some v =>
    match fs.2.typeSpec with
    | none => none
    | some ts =>
      if (ts.validTypes).contains (getJsonType v) then none
      else some ⟨fs.1,
        "Expected type " ++ ts.pyText ++ ", got " ++ getJsonType v,
        pyStr v⟩

/-- The `anomalous_fields` loop of `_check_data_quality`. -/
def anomalousOf (kvs : List (String × JVal)) :
    Option (List (String × JSchema)) → List Anomaly
  | none => []
  | some props => props.filterMap (anomFn kvs)

/-- `JSONAgent._check_data_quality`.  The two `for` loops that append to
`missing_fields`/`anomalous_fields` are rendered as `filter`/`filterMap`. -/
def check_data_quality (schemas : List (String × JSchema))
    (kvs : List (String × JVal)) (intent : String) :
    List String × List Anomaly :=
  match schemas.lookup intent with
  | none => ([], [])
  | some schema => (missingOf kvs schema.required, anomalousOf kvs schema.properties)

/-- A key that `hasKey` rejects cannot be looked up. -/
theorem lookup_eq_none_of_not_hasKey {kvs : List (String × JVal)} {k : String}
    (h : hasKey kvs k = false) : kvs.lookup k = none := by
  induction kvs with
  | nil => rfl
  | cons e es ih =>
    obtain ⟨k1, v1⟩ := e
    simp only [hasKey, List.any_cons, Bool.or_eq_false_iff] at h
    have hk : (k == k1) = false :=
      beq_eq_false_iff_ne.mpr (Ne.symm (beq_eq_false_iff_ne.mp h.1))
    rw [lookup_cons_of_ne k k1 v1 es hk]
    exact ih h.2

/-- Inversion for one iteration of the anomaly loop. -/
theorem anomFn_eq_some_iff (kvs : List (String × JVal)) (fs : String × JSchema)
    (a : Anomaly) :
    anomFn kvs fs = some a ↔
      ∃ v ts, kvs.lookup fs.1 = some v ∧ fs.2.typeSpec = some ts ∧
        (ts.validTypes).contains (getJsonType v) = false ∧
        a = ⟨fs.1, "Expected type " ++ ts.pyText ++ ", got " ++ getJsonType v,
              pyStr v⟩ := by
  unfold anomFn
  rcases hv : kvs.lookup fs.1 with _ | v
  · simp
  · rcases hts : fs.2.typeSpec with _ | ts
    · simp
    · dsimp only
      rcases hc : (ts.validTypes).contains (getJsonType v) with _ | _
      · rw [if_neg Bool.false_ne_true]
        constructor
        · intro ha
          exact ⟨v, ts, rfl, rfl, hc, (Option.some_inj.mp ha).symm⟩
        · rintro ⟨v', ts', hv', hts', hc', ha'⟩
          rw [ha', ← Option.some_inj.mp hv', ← Option.some_inj.mp hts']
      · rw [if_pos rfl]
        constructor
        · intro ha
          exact Option.noConfusion ha
        · rintro ⟨v', ts', hv', hts', hc', ha'⟩
          rw [← Option.some_inj.mp hv', ← Option.some_inj.mp hts'] at hc'
          exact absurd (hc'.symm.trans hc) Bool.false_ne_true

/-- C7: with a schema registered for the intent, the data-quality check
returns as `missing` exactly the schema's required fields absent from the
content, as anomalies exactly the declared properties present in the content
whose runtime JSON type is outside the allowed set (booleans classify as
`boolean`, not `number`), and the two lists never name the same field. -/
theorem c7_data_quality_exact (schemas : List (String × JSchema))
    (kvs : List (String × JVal)) (intent : String) (schema : JSchema)
    (hs : schemas.lookup intent = some schema) :
    (∀ f, f ∈ (check_data_quality schemas kvs intent).1 ↔
      (f ∈ schema.required.getD [] ∧ hasKey kvs f = false)) ∧
    (∀ f, f ∈ (check_data_quality schemas kvs intent).2.map (fun a => a.field) ↔
      ∃ spec v ts, (f, spec) ∈ schema.properties.getD [] ∧
        kvs.lookup f = some v ∧ spec.typeSpec = some ts ∧
        (ts.validTypes).contains (getJsonType v) = false) ∧
    (∀ b : Bool, getJsonType (JVal.bool b) = "boolean") ∧
    (∀ f, f ∈ (check_data_quality schemas kvs intent).1 →
      f ∉ (check_data_quality schemas kvs intent).2.map (fun a => a.field)) := by
  have hq : check_data_quality schemas kvs intent
      = (missingOf kvs schema.required, anomalousOf kvs schema.properties) := by
    unfold check_data_quality
    rw [hs]
  have hq1 : (check_data_quality schemas kvs intent).1
      = (schema.required.getD []).filter (fun f => !(hasKey kvs f)) := by
    rw [hq]
    rcases hr : schema.required with _ | req
    · rfl
    · rfl
  have hq2 : (check_data_quality schemas kvs intent).2
      = (schema.properties.getD []).filterMap (anomFn kvs) := by
    rw [hq]
    rcases hp : schema.properties with _ | props
    · rfl
    · rfl
  have hmissing : ∀ f, f ∈ (check_data_quality schemas kvs intent).1 ↔
      (f ∈ schema.required.getD [] ∧ hasKey kvs f = false) := by
    intro f
    rw [hq1, List.mem_filter]
    simp only [Bool.not_eq_true']
  have hanom : ∀ f, f ∈ (check_data_quality schemas kvs intent).2.map (fun a => a.field) ↔
      ∃ spec v ts, (f, spec) ∈ schema.properties.getD [] ∧
        kvs.lookup f = some v ∧ spec.typeSpec = some ts ∧
        (ts.validTypes).contains (getJsonType v) = false := by
    intro f
    rw [hq2]
    constructor
    · intro hf
      obtain ⟨a, ha, haf⟩ := List.mem_map.mp hf
      obtain ⟨fs, hfs, hfa⟩ := List.mem_filterMap.mp ha
      obtain ⟨f1, spec⟩ := fs
      obtain ⟨v, ts, hv, hts, hc, hae⟩ := (anomFn_eq_some_iff kvs (f1, spec) a).mp hfa
      have hf1 : f1 = f := by rw [hae] at haf; exact haf
      subst hf1
      exact ⟨spec, v, ts, hfs, hv, hts, hc⟩
    · rintro ⟨spec, v, ts, hmem, hv, hts, hc⟩
      refine List.mem_map.mpr ⟨⟨f,
        "Expected type " ++ ts.pyText ++ ", got " ++ getJsonType v, pyStr v⟩, ?_, rfl⟩
      refine List.mem_filterMap.mpr ⟨(f, spec), hmem, ?_⟩
      exact (anomFn_eq_some_iff kvs (f, spec) _).mpr ⟨v, ts, hv, hts, hc, rfl⟩
  refine ⟨hmissing, hanom, fun b => rfl, ?_⟩
  intro f hf hfa
  have h1 := (hmissing f).mp hf
  have h2 := (hanom f).mp hfa
  obtain ⟨spec, v, ts, _, hv, _, _⟩ := h2
  rw [lookup_eq_none_of_not_hasKey h1.2] at hv
  exact Option.noConfusion hv

/-- The spec's scenario content
`\x7b"type":"invoice","invoice_number":"X1","date":"2024-01-01"\x7d`. -/
def c7Content : List (String × JVal) :=
  [("type", JVal.str "invoice"), ("invoice_number", JVal.str "X1"),
   ("date", JVal.str "2024-01-01")]

/-- C7 witness: the theorem instantiated at the spec's invoice scenario, where
the check returns `missing_fields = ["total_amount"]` and no anomalies. -/
theorem c7_witness :
    defaultSchemas.lookup "invoice" = some invoiceSchema ∧
    ((∀ f, f ∈ (check_data_quality defaultSchemas c7Content "invoice").1 ↔
        (f ∈ invoiceSchema.required.getD [] ∧ hasKey c7Content f = false)) ∧
      (∀ f, f ∈ (check_data_quality defaultSchemas c7Content "invoice").2.map (fun a => a.field) ↔
        ∃ spec v ts, (f, spec) ∈ invoiceSchema.properties.getD [] ∧
          c7Content.lookup f = some v ∧ spec.typeSpec = some ts ∧
          (ts.validTypes).contains (getJsonType v) = false) ∧
      (∀ b : Bool, getJsonType (JVal.bool b) = "boolean") ∧
      (∀ f, f ∈ (check_data_quality defaultSchemas c7Content "invoice").1 →
        f ∉ (check_data_quality defaultSchemas c7Content "invoice").2.map (fun a => a.field))) ∧
    (check_data_quality defaultSchemas c7Content "invoice").1 = ["total_amount"] ∧
    (check_data_quality defaultSchemas c7Content "invoice").2 = [] :=
  ⟨rfl, c7_data_quality_exact defaultSchemas c7Content "invoice" invoiceSchema rfl, rfl, rfl⟩

/-- Python `+` as used by the `items_total` sum.  The accumulator starts from
the int `0`, so the left operand is always a number; numbers and booleans add
(booleans count as 0/1), any other right operand raises `TypeError`. -/
def pyAdd (a b : JVal) : Except String JVal :=
  match a, b with
  | .num x, .num y => .ok (.num (x + y))
  | .num x, .bool y => .ok (.num (x + (if y then 1 else 0)))
  | .bool x, .num y => .ok (.num ((if x then 1 else 0) + y))
  | .bool x, .bool y => .ok (.num ((if x then 1 else 0) + (if y then 1 else 0)))
  | _, _ => .error "TypeError"

/-- The `amount` of one item when present
(`isinstance(item, dict) and 'amount' in item`). -/
def amountOf : JVal → Option JVal
  | .obj ikvs => ikvs.lookup "amount"
  | _ => none

/-- The `amount` values summed by the invoice branch:
`item.get('amount', 0) for item in items if isinstance(item, dict) and
'amount' in item`. -/
def itemsAmounts (items : List JVal) : List JVal :=
  items.filterMap amountOf

/-- `sum(...)` over the amounts, starting from the int `0`; raises `TypeError`
for a non-numeric amount. -/
def itemsTotal (items : List JVal) : Except String JVal :=
  (itemsAmounts items).foldlM pyAdd (JVal.num 0)

/-- Best-effort lookup of a list of keys, keeping insertion order
(`if field in json_content: extracted[field] = json_content[field]`). -/
def pickFields (kvs : List (String × JVal)) (names : List String) :
    List (String × JVal) :=
  names.filterMap (fun k => (kvs.lookup k).map (fun v => (k, v)))

/-- `extracted['X_name'] = json_content['X'].get('name')` guarded by the
`isinstance(..., dict)` check. -/
def nameOfObjField (kvs : List (String × JVal)) (key outKey : String) :
    List (String × JVal) :=
  match kvs.lookup key with
  | some (.obj okvs) => [(outKey, (okvs.lookup "name").getD JVal.null)]
  | _ => []

/-- `JSONAgent._extract_fields`.  Total except for the invoice `items_total`
sum, which raises `TypeError` when an `amount` is non-numeric; every lookup is
best-effort, so missing keys simply contribute no entry. -/
def extract_fields (kvs : List (String × JVal)) (intent : String) :
    Except String (List (String × JVal)) := do
  let common := pickFields kvs ["id", "date", "type"]
  if intent == "invoice" then
    let base := pickFields kvs ["invoice_number", "total_amount", "currency", "payment_terms"]
    let vendor := nameOfObjField kvs "vendor" "vendor_name"
    let customer := nameOfObjField kvs "customer" "customer_name"
    match kvs.lookup "items" with
    | some (.arr items) => do
        let total ← itemsTotal items
        return common ++ base ++ vendor ++ customer
          ++ [("items_count", JVal.num (items.length : ℚ)), ("items_total", total)]
    | _ => return common ++ base ++ vendor ++ customer
  else if intent == "rfq" then
    let base := pickFields kvs ["rfq_number", "delivery_date", "contact_person"]
    let customer := nameOfObjField kvs "customer" "customer_name"
    match kvs.lookup "items" with
    | some (.arr items) =>
        return common ++ base ++ customer
          ++ [("items_count", JVal.num (items.length : ℚ)),
              ("items_summary", JVal.arr (items.filterMap (fun it =>
                match it with
                | .obj ikvs => some ((ikvs.lookup "description").getD (JVal.str "Unknown item"))
                | _ => none)))]
    | _ => return common ++ base ++ customer
  else if intent == "complaint" then
    return common ++ pickFields kvs ["customer_id", "message", "severity", "category"]
  else
    return common

/-- Whether one item cannot make the invoice sum raise: either it is not a
dict, has no `amount`, or its `amount` is a number/boolean. -/
def amountNumeric : JVal → Bool
  | .obj ikvs =>
      match ikvs.lookup "amount" with
      | some (.num _) => true
      | some (.bool _) => true
      | some _ => false
      | none => true
  | _ => true

/-- The condition under which the invoice `items_total` sum cannot raise. -/
def invoiceAmountsNumeric (kvs : List (String × JVal)) (intent : String) : Bool :=
  if intent == "invoice" then
    match kvs.lookup "items" with
    | some (.arr items) => items.all amountNumeric
    | _ => true
  else true

/-- Folding `pyAdd` from a numeric accumulator over numeric/boolean values
cannot raise. -/
theorem foldlM_pyAdd_ok (l : List JVal)
    (h : ∀ v ∈ l, (∃ x, v = JVal.num x) ∨ (∃ b, v = JVal.bool b)) :
    ∀ q : ℚ, ∃ r : ℚ, l.foldlM pyAdd (JVal.num q) = Except.ok (JVal.num r) := by
  induction l with
  | nil => intro q; exact ⟨q, rfl⟩
  | cons v vs ih =>
    intro q
    have hv := h v (List.mem_cons_self v vs)
    have htail := fun w hw => h w (List.mem_cons_of_mem v hw)
    rcases hv with ⟨x, hx⟩ | ⟨b, hb⟩
    · subst hx
      obtain ⟨r, hr⟩ := ih htail (q + x)
      exact ⟨r, hr⟩
    · subst hb
      obtain ⟨r, hr⟩ := ih htail (q + (if b then 1 else 0))
      exact ⟨r, hr⟩

/-- The amounts extracted from a list of all-numeric items are numeric. -/
theorem itemsAmounts_numeric (items : List JVal)
    (hall : items.all amountNumeric = true) :
    ∀ v ∈ itemsAmounts items,
      (∃ x, v = JVal.num x) ∨ (∃ b, v = JVal.bool b) := by
  intro v hv
  obtain ⟨it, hit, hx⟩ := List.mem_filterMap.mp hv
  have hok := List.all_eq_true.mp hall it hit
  rcases it with _ | b0 | q0 | s0 | el0 | ikvs
  · exact Option.noConfusion hx
  · exact Option.noConfusion hx
  · exact Option.noConfusion hx
  · exact Option.noConfusion hx
  · exact Option.noConfusion hx
  · simp only [amountOf] at hx
    simp only [amountNumeric] at hok
    rw [hx] at hok
    rcases v with _ | b | x | t | el | en
    · exact Bool.noConfusion hok
    · exact Or.inr ⟨b, rfl⟩
    · exact Or.inl ⟨x, rfl⟩
    · exact Bool.noConfusion hok
    · exact Bool.noConfusion hok
    · exact Bool.noConfusion hok

/-- The invoice sum succeeds on all-numeric amounts. -/
theorem itemsTotal_ok (items : List JVal) (hall : items.all amountNumeric = true) :
    ∃ r : ℚ, itemsTotal items = Except.ok (JVal.num r) :=
  foldlM_pyAdd_ok (itemsAmounts items) (itemsAmounts_numeric items hall) 0

/-- C8 counterexample: with intent `invoice` and an item whose `amount` is the
string `"10"`, the extraction step raises (`sum` evaluates `0 + "10"`,
a `TypeError`) — the field-extraction step is not total. -/
theorem c8_counterexample :
    extract_fields [("items", JVal.arr [JVal.obj [("amount", JVal.str "10")]])] "invoice"
      = Except.error "TypeError" := rfl

/-- C8 (amended): the field-extraction step never raises provided every
`amount` in an invoice's `items` list is numeric (number or boolean); for
every other intent it is total unconditionally, and keys missing from the
content simply produce absent entries — on empty content every handler branch
returns the empty mapping rather than failing. -/
theorem c8_amended (kvs : List (String × JVal)) (intent : String)
    (h : invoiceAmountsNumeric kvs intent = true) :
    (extract_fields kvs intent).isOk = true ∧
    (∀ i : String, extract_fields [] i = Except.ok []) := by
  constructor
  · unfold extract_fields
    by_cases h1 : (intent == "invoice") = true
    · rw [if_pos h1]
      rcases hit : kvs.lookup "items" with _ | v
      · rfl
      · rcases v with _ | b | x | t | items | o
        · rfl
        · rfl
        · rfl
        · rfl
        · have hall : items.all amountNumeric = true := by
            unfold invoiceAmountsNumeric at h
            rw [if_pos h1, hit] at h
            exact h
          obtain ⟨r, hr⟩ := itemsTotal_ok items hall
          dsimp only
          rw [hr]
          rfl
        · rfl
    · rw [if_neg h1]
      by_cases h2 : (intent == "rfq") = true
      · rw [if_pos h2]
        rcases hit : kvs.lookup "items" with _ | v
        · rfl
        · rcases v with _ | b | x | t | items | o
          · rfl
          · rfl
          · rfl
          · rfl
          · rfl
          · rfl
      · rw [if_neg h2]
        by_cases h3 : (intent == "complaint") = true
        · rw [if_pos h3]; rfl
        · rw [if_neg h3]; rfl
  · intro i
    unfold extract_fields
    by_cases h1 : (i == "invoice") = true
    · rw [if_pos h1]; rfl
    · rw [if_neg h1]
      by_cases h2 : (i == "rfq") = true
      · rw [if_pos h2]; rfl
      · rw [if_neg h2]
        by_cases h3 : (i == "complaint") = true
        · rw [if_pos h3]; rfl
        · rw [if_neg h3]; rfl

/-- A small invoice content with numeric amounts. -/
def c8Content : List (String × JVal) :=
  [("invoice_number", JVal.str "X1"),
   ("items", JVal.arr [JVal.obj [("amount", JVal.num 5)],
                       JVal.obj [("amount", JVal.num 7)]])]

/-- C8 witness: the amended statement instantiated at a numeric invoice. -/
theorem c8_amended_witness :
    invoiceAmountsNumeric c8Content "invoice" = true ∧
    ((extract_fields c8Content "invoice").isOk = true ∧
      (∀ i : String, extract_fields [] i = Except.ok [])) :=
  ⟨rfl, c8_amended c8Content "invoice" rfl⟩

/-! ## A small backtracking regex engine

The email agent (`src/agents/email_agent.py`) works through `re.search` /
`re.findall`.  The engine below implements Python's backtracking semantics
(greedy quantifiers, leftmost first match, bump-along scanning) for exactly
the constructs those patterns use: literals, character classes, concatenation,
alternation, `*`, `?`, bounded repetition and `\b`.  Recursion is bounded by
an explicit fuel that is always ample for the inputs evaluated. -/

/-- Regular expressions over characters. -/
inductive RE where
  | eps : RE
  | ch (c : Char) : RE
  | cls (f : Char → Bool) : RE
  | seq (a b : RE) : RE
  | alt (a b : RE) : RE
  | star (a : RE) : RE
  | opt (a : RE) : RE
  | wordB : RE

/-- Python's `\w` test (ASCII letters, digits, underscore). -/
def isWordChar (c : Char) : Bool := c.isAlphanum || c == '_'

/-- `\b`: the two sides disagree on word-ness (ends of the string count as
non-word). -/
def boundaryAt (prev next : Option Char) : Bool :=
  (match prev with | none => false | some c => isWordChar c)
    != (match next with | none => false | some c => isWordChar c)

/-- Backtracking matcher in continuation-passing style; returns the first
(`re`-style) accepted continuation result.  `prev` is the character before the
current position (for `\b`). -/
def mtch : Nat → RE → Option Char → List Char →
    (Option Char → List Char → Option (List Char)) → Option (List Char)
  | 0, _, _, _, _ => none
  | fuel + 1, re, prev, s, k =>
    match re with
    | .eps => k prev s
    | .ch c =>
      match s with
      | [] => none
      | x :: xs => if x == c then k (some x) xs else none
    | .cls f =>
      match s with
      | [] => none
      | x :: xs => if f x then k (some x) xs else none
    | .seq a b => mtch fuel a prev s (fun p2 s2 => mtch fuel b p2 s2 k)
    | .alt a b =>
      match mtch fuel a prev s k with
      | some r => some r
      | none => mtch fuel b prev s k
    | .star a =>
      match mtch fuel a prev s (fun p2 s2 => mtch fuel (.star a) p2 s2 k) with
      | some r => some r
      | none => k prev s
    | .opt a =>
      match mtch fuel a prev s k with
      | some r => some r
      | none => k prev s
    | .wordB => if boundaryAt prev s.head? then k prev s else none

/-- First match attempt at the current position; returns the remaining
suffix on success. -/
def reFirst (fuel : Nat) (re : RE) (prev : Option Char) (s : List Char) :
    Option (List Char) :=
  mtch fuel re prev s (fun _ rest => some rest)

/-- Ample fuel for the matcher on this input. -/
def mtchFuel (s : List Char) : Nat := s.length * 200 + 2000

/-- `re.findall`-style scan: leftmost matches, continuing after each match
(bumping one character along on failure or an empty match). -/
def findAllAux : Nat → Nat → RE → Option Char → List Char → List (List Char)
  | 0, _, _, _, _ => []
  | scan + 1, fuel, re, prev, s =>
    match reFirst fuel re prev s with
    | some rest =>
      let n := s.length - rest.length
      if n = 0 then
        match s with
        | [] => []
        | c :: cs => findAllAux scan fuel re (some c) cs
      else
        s.take n :: findAllAux scan fuel re (s.take n).getLast? rest
    | none =>
      match s with
      | [] => []
      | c :: cs => findAllAux scan fuel re (some c) cs

/-- `re.findall pattern text` (no capture groups, so whole matches). -/
def reFindAll (re : RE) (s : String) : List String :=
  (findAllAux (s.length + 1) (mtchFuel s.toList) re none s.toList).map
    (fun cs => String.mk cs)

/-- `re.search pattern text is not None`. -/
def reSearchAux : Nat → Nat → RE → Option Char → List Char → Bool
  | 0, _, _, _, _ => false
  | scan + 1, fuel, re, prev, s =>
    match reFirst fuel re prev s with
    | some _ => true
    | none =>
      match s with
      | [] => false
      | c :: cs => reSearchAux scan fuel re (some c) cs

def reSearch (re : RE) (s : String) : Bool :=
  reSearchAux (s.length + 1) (mtchFuel s.toList) re none s.toList

/-- A sequence of literal characters. -/
def reStr : List Char → RE
  | [] => .eps
  | c :: cs => .seq (.ch c) (reStr cs)

/-- A case-insensitive literal character (`re.IGNORECASE`). -/
def chI (c : Char) : RE := .cls (fun x => x.toLower == c.toLower)

/-- A case-insensitive literal word. -/
def reStrI : List Char → RE
  | [] => .eps
  | c :: cs => .seq (chI c) (reStrI cs)

/-- `+` (one or more, greedy). -/
def rePlus (a : RE) : RE := .seq a (.star a)

/-- Exactly `n` copies. -/
def reTimes : Nat → RE → RE
  | 0, _ => .eps
  | n + 1, a => .seq a (reTimes n a)

/-- `\x7bm,n\x7d` (greedy: longest first). -/
def reRange (a : RE) : Nat → Nat → RE
  | lo, 0 => reTimes lo a
  | lo, hi + 1 =>
    if hi + 1 ≤ lo then reTimes lo a
    else .alt (reTimes (hi + 1) a) (reRange a lo hi)

/-- First-match alternation over a list (an unmatchable class when empty). -/
def altList : List RE → RE
  | [] => .cls (fun _ => false)
  | [r] => r
  | r :: rest => .alt r (altList rest)

/-- `\d`. -/
def dCls : RE := .cls Char.isDigit

/-- `\s` (ASCII whitespace, as in Python's `re` for str patterns). -/
def isPySpace (c : Char) : Bool :=
  c == ' ' || c == '\t' || c == '\n' || c == '\r' || c == '\x0b' || c == '\x0c'

def sCls : RE := .cls isPySpace

/-- `\w`. -/
def wCls : RE := .cls isWordChar

/-! ## Email agent helpers (`src/agents/email_agent.py`) -/

/-- `str.lower()` (ASCII). -/
def toLowerStr (s : String) : String := String.mk (s.toList.map Char.toLower)

/-- The high-urgency keyword list of `_determine_urgency`. -/
def high_urgency : List String :=
  ["urgent", "asap", "emergency", "immediate", "critical", "important"]

/-- The medium-urgency keyword list of `_determine_urgency`. -/
def medium_urgency : List String :=
  ["soon", "timely", "attention", "priority", "please respond"]

/-- `\b` + `re.escape(keyword)` + `\b`. -/
def wordPattern (kw : String) : RE :=
  .seq .wordB (.seq (reStr kw.toList) .wordB)

/-- `EmailAgent._determine_urgency`: first high keyword found wins, then
medium, else `"low"`; the search text is `(subject + " " + body).lower()`. -/
def determine_urgency (subject body : String) : String :=
  let combined := toLowerStr (subject ++ " " ++ body)
  if high_urgency.any (fun kw => reSearch (wordPattern kw) combined) then "high"
  else if medium_urgency.any (fun kw => reSearch (wordPattern kw) combined) then "medium"
  else "low"

/-- `EmailAgent._extract_domain`: `re.search(r'@([^@]+)$', addr)` — the
(leftmost such) match takes everything after the last `@`, provided it is
non-empty. -/
def extract_domain (addr : String) : Option String :=
  let cs := addr.toList
  let tail := (cs.reverse.takeWhile (fun c => !(c == '@'))).reverse
  if cs.contains '@' && !tail.isEmpty then some (String.mk tail) else none

/-- `[\w\.-]`. -/
def emailCls : RE := .cls (fun c => isWordChar c || c == '.' || c == '-')

/-- `[\w\.-]+@[\w\.-]+\.\w+`. -/
def emailPattern : RE :=
  .seq (rePlus emailCls)
    (.seq (.ch '@')
      (.seq (rePlus emailCls) (.seq (.ch '.') (rePlus wCls))))

/-- `[-\s]`. -/
def dashSpace : RE := .cls (fun c => c == '-' || isPySpace c)

/-- `\b(?:\+\d\x7b1,3\x7d[-\s]?)?\(?\d\x7b3\x7d\)?[-\s]?\d\x7b3\x7d[-\s]?\d\x7b4\x7d\b`. -/
def phonePattern : RE :=
  .seq .wordB
    (.seq (.opt (.seq (.ch '+') (.seq (reRange dCls 1 3) (.opt dashSpace))))
      (.seq (.opt (.ch '('))
        (.seq (reTimes 3 dCls)
          (.seq (.opt (.ch ')'))
            (.seq (.opt dashSpace)
              (.seq (reTimes 3 dCls)
                (.seq (.opt dashSpace)
                  (.seq (reTimes 4 dCls) .wordB))))))))

/-- `EmailAgent._extract_contacts`: e-mail matches then phone matches. -/
def extract_contacts (text : String) : List String :=
  reFindAll emailPattern text ++ reFindAll phonePattern text

/-- The slash-or-dash class of the first date pattern. -/
def slashDash : RE := .cls (fun c => c == '/' || c == '-')

/-- `\b\d\x7b1,2\x7d`, slash-or-dash, `\d\x7b1,2\x7d`, slash-or-dash,
`\d\x7b2,4\x7d\b`. -/
def datePattern1 : RE :=
  .seq .wordB
    (.seq (reRange dCls 1 2)
      (.seq slashDash
        (.seq (reRange dCls 1 2)
          (.seq slashDash (.seq (reRange dCls 2 4) .wordB)))))

def monthNames : List String :=
  ["Jan", "Feb", "Mar", "Apr", "May", "Jun", "Jul", "Aug", "Sep", "Oct", "Nov", "Dec"]

def monthAlt : RE := altList (monthNames.map (fun m => reStrI m.toList))

/-- `[a-z]*` under `re.IGNORECASE`. -/
def azStarI : RE := .star (.cls Char.isAlpha)

/-- `(?:st|nd|rd|th)?`. -/
def ordSuffix : RE :=
  .opt (altList [reStrI "st".toList, reStrI "nd".toList,
                 reStrI "rd".toList, reStrI "th".toList])

/-- `\b(?:Jan|...|Dec)[a-z]* \d\x7b1,2\x7d(?:st|nd|rd|th)?,? \d\x7b4\x7d\b`. -/
def datePattern2 : RE :=
  .seq .wordB
    (.seq monthAlt
      (.seq azStarI
        (.seq (.ch ' ')
          (.seq (reRange dCls 1 2)
            (.seq ordSuffix
              (.seq (.opt (.ch ','))
                (.seq (.ch ' ') (.seq (reTimes 4 dCls) .wordB))))))))

/-- `\b\d\x7b1,2\x7d(?:st|nd|rd|th)? (?:Jan|...|Dec)[a-z]* \d\x7b4\x7d\b`. -/
def datePattern3 : RE :=
  .seq .wordB
    (.seq (reRange dCls 1 2)
      (.seq ordSuffix
        (.seq (.ch ' ')
          (.seq monthAlt
            (.seq azStarI
              (.seq (.ch ' ') (.seq (reTimes 4 dCls) .wordB)))))))

/-- `EmailAgent._extract_dates`: the three patterns scanned in order. -/
def extract_dates (text : String) : List String :=
  reFindAll datePattern1 text ++ reFindAll datePattern2 text
    ++ reFindAll datePattern3 text

/-- `\d+(?:,\d\x7b3\x7d)*(?:\.\d\x7b2\x7d)?` — the numeric core of the currency
patterns. -/
def amountCore : RE :=
  .seq (rePlus dCls)
    (.seq (.star (.seq (.ch ',') (reTimes 3 dCls)))
      (.opt (.seq (.ch '.') (reTimes 2 dCls))))

/-- `\$\s?` + the numeric core. -/
def currencyPattern1 : RE := .seq (.ch '$') (.seq (.opt sCls) amountCore)

/-- `dollars|USD|EUR|GBP` (case-insensitive). -/
def currencyWords : RE :=
  altList [reStrI "dollars".toList, reStrI "USD".toList,
           reStrI "EUR".toList, reStrI "GBP".toList]

/-- numeric core + `\s?` + currency word. -/
def currencyPattern2 : RE := .seq amountCore (.seq (.opt sCls) currencyWords)

/-- `USD|EUR|GBP` (case-insensitive). -/
def currencyCodes : RE :=
  altList [reStrI "USD".toList, reStrI "EUR".toList, reStrI "GBP".toList]

/-- currency code + `\s?` + numeric core. -/
def currencyPattern3 : RE := .seq currencyCodes (.seq (.opt sCls) amountCore)

/-- `EmailAgent._extract_amounts`: the three currency patterns scanned in
order. -/
def extract_amounts (text : String) : List String :=
  reFindAll currencyPattern1 text ++ reFindAll currencyPattern2 text
    ++ reFindAll currencyPattern3 text

/-- `re.sub(r'[^\d.]', '', amount)`. -/
def cleanAmount (s : String) : String :=
  String.mk (s.toList.filter (fun c => c.isDigit || c == '.'))

/-- Digits of a cleaned amount as a natural number. -/
def digitsToNat (cs : List Char) : Nat :=
  cs.foldl (fun n c => n * 10 + (c.toNat - '0'.toNat)) 0

/-- Python `float()` on a cleaned amount string (digits and dots): accepts at
most one dot and at least one digit.  The value is modelled as an exact
rational; every claim-relevant amount is exactly representable in both
models. -/
def pyFloatOfCleaned (s : String) : Option ℚ :=
  let cs := s.toList
  if cs.isEmpty then none
  else if !(cs.all (fun c => c.isDigit || c == '.')) then none
  else if 1 < (cs.filter (fun c => c == '.')).length then none
  else if (cs.filter Char.isDigit).isEmpty then none
  else
    let intPart := cs.takeWhile (fun c => !(c == '.'))
    let fracPart := (cs.dropWhile (fun c => !(c == '.'))).drop 1
    some (mkRat (digitsToNat (intPart ++ fracPart)) (10 ^ fracPart.length))

/-- `EmailAgent._estimate_potential_value`: clean each amount, parse as float
(skipping failures), return the maximum, or `None` when nothing parses.  The
`intent` parameter is accepted and ignored, as in the code. -/
def estimate_potential_value (intent : String) (amounts : List String) : Option ℚ :=
  if amounts.isEmpty then none
  else
    match amounts.filterMap (fun a => pyFloatOfCleaned (cleanAmount a)) with
    | [] => none
    | v :: vs => some (vs.foldl max v)


/-! ### For-all facts about `_extract_amounts` and `_estimate_potential_value`

A scan-level argument shows that every body mentioning `$1,250.00` yields it
as an extracted amount: a `currencyPattern1` match consumes `$` only as its
first character, so the leftmost scan can neither jump over nor absorb the
mention, and on arriving at its `$` the greedy match takes exactly
`$1,250.00`. -/

/-- `re` avoids a character: no `ch`/`cls` node of it can consume `c`. -/
def avoidsCharB (c : Char) : RE → Bool
  | .eps => true
  | .ch c2 => !(c2 == c)
  | .cls f => !(f c)
  | .seq a b => avoidsCharB c a && avoidsCharB c b
  | .alt a b => avoidsCharB c a && avoidsCharB c b
  | .star a => avoidsCharB c a
  | .opt a => avoidsCharB c a
  | .wordB => true

/-- A successful `mtch` call invokes its continuation on a split of the input,
and the consumed part omits any character the pattern avoids. -/
theorem mtch_consumed (c0 : Char) : ∀ (fuel : Nat) (re : RE) (prev : Option Char)
    (s : List Char) (k : Option Char → List Char → Option (List Char))
    (r : List Char), mtch fuel re prev s k = some r →
    ∃ (p2 : Option Char) (consumed s2 : List Char),
      s = consumed ++ s2 ∧
      (avoidsCharB c0 re = true → c0 ∉ consumed) ∧
      k p2 s2 = some r := by
  intro fuel
  induction fuel with
  | zero => intro re prev s k r h; exact Option.noConfusion h
  | succ fuel ih =>
    intro re prev s k r h
    cases re with
    | eps =>
      exact ⟨prev, [], s, rfl, fun _ => List.not_mem_nil c0, h⟩
    | ch c =>
      cases s with
      | nil => exact Option.noConfusion (by simpa only [mtch] using h)
      | cons x xs =>
        simp only [mtch] at h
        by_cases hx : (x == c) = true
        · rw [if_pos hx] at h
          refine ⟨some x, [x], xs, rfl, ?_, h⟩
          intro hav hmem
          rw [List.mem_singleton] at hmem
          subst hmem
          simp only [avoidsCharB, Bool.not_eq_true', beq_eq_false_iff_ne] at hav
          exact hav (beq_iff_eq.mp hx).symm
        · rw [if_neg hx] at h; exact Option.noConfusion h
    | cls f =>
      cases s with
      | nil => exact Option.noConfusion (by simpa only [mtch] using h)
      | cons x xs =>
        simp only [mtch] at h
        by_cases hx : f x = true
        · rw [if_pos hx] at h
          refine ⟨some x, [x], xs, rfl, ?_, h⟩
          intro hav hmem
          rw [List.mem_singleton] at hmem
          subst hmem
          simp only [avoidsCharB, Bool.not_eq_true'] at hav
          rw [hav] at hx
          exact Bool.noConfusion hx
        · rw [if_neg hx] at h; exact Option.noConfusion h
    | seq a b =>
      simp only [mtch] at h
      obtain ⟨p2, c1, s2, hs, hav1, h2⟩ := ih a prev s _ r h
      obtain ⟨p3, c2, s3, hs2, hav2, h3⟩ := ih b p2 s2 _ r h2
      refine ⟨p3, c1 ++ c2, s3, by rw [hs, hs2, List.append_assoc], ?_, h3⟩
      intro hav hmem
      simp only [avoidsCharB, Bool.and_eq_true] at hav
      rcases List.mem_append.mp hmem with hm | hm
      · exact hav1 hav.1 hm
      · exact hav2 hav.2 hm
    | alt a b =>
      simp only [mtch] at h
      cases hma : mtch fuel a prev s k with
      | some v =>
        rw [hma] at h
        obtain ⟨p2, c1, s2, hs, hav1, h2⟩ := ih a prev s k v hma
        refine ⟨p2, c1, s2, hs, ?_, by rw [h2]; exact h⟩
        intro hav
        simp only [avoidsCharB, Bool.and_eq_true] at hav
        exact hav1 hav.1
      | none =>
        rw [hma] at h
        obtain ⟨p2, c1, s2, hs, hav1, h2⟩ := ih b prev s k r h
        refine ⟨p2, c1, s2, hs, ?_, h2⟩
        intro hav
        simp only [avoidsCharB, Bool.and_eq_true] at hav
        exact hav1 hav.2
    | star a =>
      simp only [mtch] at h
      cases hma : mtch fuel a prev s
          (fun p2 s2 => mtch fuel (.star a) p2 s2 k) with
      | some v =>
        rw [hma] at h
        obtain ⟨p2, c1, s2, hs, hav1, h2⟩ := ih a prev s _ v hma
        obtain ⟨p3, c2, s3, hs2, hav2, h3⟩ := ih (.star a) p2 s2 k v h2
        refine ⟨p3, c1 ++ c2, s3, by rw [hs, hs2, List.append_assoc], ?_,
          by rw [h3]; exact h⟩
        intro hav hmem
        rcases List.mem_append.mp hmem with hm | hm
        · exact hav1 hav hm
        · exact hav2 hav hm
      | none =>
        rw [hma] at h
        exact ⟨prev, [], s, rfl, fun _ => List.not_mem_nil c0, h⟩
    | opt a =>
      simp only [mtch] at h
      cases hma : mtch fuel a prev s k with
      | some v =>
        rw [hma] at h
        obtain ⟨p2, c1, s2, hs, hav1, h2⟩ := ih a prev s k v hma
        exact ⟨p2, c1, s2, hs, fun hav => hav1 hav, by rw [h2]; exact h⟩
      | none =>
        rw [hma] at h
        exact ⟨prev, [], s, rfl, fun _ => List.not_mem_nil c0, h⟩
    | wordB =>
      simp only [mtch] at h
      by_cases hb : boundaryAt prev s.head? = true
      · rw [if_pos hb] at h
        exact ⟨prev, [], s, rfl, fun _ => List.not_mem_nil c0, h⟩
      · rw [if_neg hb] at h; exact Option.noConfusion h

/-- A successful `currencyPattern1` match starts with `$` and consumes no
further `$`. -/
theorem reFirst_p1_decomp (fuel : Nat) (prev : Option Char) (s rest : List Char)
    (h : reFirst (fuel + 2) currencyPattern1 prev s = some rest) :
    ∃ (x : Char) (consumed : List Char),
      s = x :: (consumed ++ rest) ∧ x = '$' ∧ '$' ∉ consumed := by
  unfold reFirst currencyPattern1 at h
  simp only [mtch] at h
  cases s with
  | nil => exact Option.noConfusion h
  | cons x xs =>
    simp only [mtch] at h
    by_cases hx : (x == '$') = true
    · rw [if_pos hx] at h
      obtain ⟨p2, consumed, s2, hs, hav, hk⟩ :=
        mtch_consumed '$' (fuel + 1) (.seq (.opt sCls) amountCore) (some x) xs _ rest h
      have hrest : s2 = rest := Option.some.inj hk
      refine ⟨x, consumed, ?_, beq_iff_eq.mp hx, ?_⟩
      · rw [hs, hrest]
      · exact hav (by decide)
    · rw [if_neg hx] at h; exact Option.noConfusion h

/-- At the mention itself, the greedy first match is exactly `$1,250.00`,
whatever follows. -/
theorem findAll_p1_base (post : List Char) (prev : Option Char) (scan m : Nat) :
    "$1,250.00".toList ∈
      findAllAux (scan + 1) (m + 2000) currencyPattern1 prev
        ("$1,250.00".toList ++ post) := by
  have hfirst : reFirst (m + 2000) currencyPattern1 prev
      ("$1,250.00".toList ++ post) = some post := rfl
  simp only [findAllAux]
  rw [hfirst]
  have hn : ("$1,250.00".toList ++ post).length - post.length = 9 := by
    simp [List.length_append]
    omega
  simp only [hn]
  rw [if_neg (by decide : ¬(9 = 0))]
  rw [show (9 : Nat) = ("$1,250.00".toList).length from rfl, List.take_left]
  exact List.mem_cons_self _ _

/-- The scan over any `pre ++ $1,250.00 ++ post` produces the mention: matches
before it stay inside `pre` (they cannot consume the mention's `$`), so the
scan eventually attempts the mention's position and matches it exactly. -/
theorem findAll_p1_hits (k : Nat) : ∀ (pre post : List Char) (prev : Option Char)
    (scan m : Nat), pre.length ≤ k → pre.length < scan →
    "$1,250.00".toList ∈
      findAllAux scan (m + 2000) currencyPattern1 prev
        (pre ++ ("$1,250.00".toList ++ post)) := by
  induction k with
  | zero =>
    intro pre post prev scan m hk hscan
    have hpre : pre = [] := List.length_eq_zero.mp (Nat.le_zero.mp hk)
    subst hpre
    cases scan with
    | zero => exact absurd hscan (by simp)
    | succ scan' => exact findAll_p1_base post prev scan' m
  | succ k ih =>
    intro pre post prev scan m hk hscan
    cases pre with
    | nil =>
      cases scan with
      | zero => exact absurd hscan (by simp)
      | succ scan' => exact findAll_p1_base post prev scan' m
    | cons c pre' =>
      cases scan with
      | zero => exact absurd hscan (Nat.not_lt_zero _)
      | succ scan' =>
        have hk' : pre'.length ≤ k := by
          simp only [List.length_cons] at hk; omega
        have hscan' : pre'.length < scan' := by
          simp only [List.length_cons] at hscan; omega
        simp only [findAllAux]
        cases hfirst : reFirst (m + 2000) currencyPattern1 prev
            ((c :: pre') ++ ("$1,250.00".toList ++ post)) with
        | none =>
          simp only [List.cons_append]
          exact ih pre' post (some c) scan' m hk' hscan'
        | some rest =>
          obtain ⟨x, consumed, hs, hx, hnod⟩ :=
            reFirst_p1_decomp (m + 1998) prev _ rest hfirst
          rw [List.cons_append] at hs
          injection hs with hcx htail
          have h9 : ("$1,250.00".toList).length = 9 := rfl
          have hlen : pre'.length + (9 + post.length)
              = consumed.length + rest.length := by
            have h0 := congrArg List.length htail
            simp only [List.length_append, h9] at h0
            exact h0
          have hrest_len : 9 + post.length ≤ rest.length := by
            by_contra hlt
            push_neg at hlt
            have hcons_len : pre'.length < consumed.length := by omega
            have hcons_eq : consumed
                = (pre' ++ ("$1,250.00".toList ++ post)).take consumed.length := by
              rw [htail, List.take_left]
            have hdollar : '$' ∈ consumed := by
              rw [hcons_eq, List.take_append_eq_append_take]
              apply List.mem_append_right
              obtain ⟨m2, hm2⟩ : ∃ m2, consumed.length - pre'.length = m2 + 1 :=
                ⟨consumed.length - pre'.length - 1, by omega⟩
              rw [hm2]
              rw [show ("$1,250.00".toList) = '$' :: "1,250.00".toList from rfl]
              rw [List.cons_append, List.take_succ_cons]
              exact List.mem_cons_self _ _
            exact hnod hdollar
          have hslen : ((c :: pre') ++ ("$1,250.00".toList ++ post)).length
              = pre'.length + (9 + post.length) + 1 := by
            simp only [List.length_append, List.length_cons, h9]
            omega
          have hne : ¬(((c :: pre') ++ ("$1,250.00".toList ++ post)).length
              - rest.length = 0) := by
            rw [hslen]; omega
          dsimp only
          rw [if_neg hne]
          apply List.mem_cons_of_mem
          have hdle : consumed.length ≤ pre'.length := by omega
          have hrest_eq : rest
              = pre'.drop consumed.length ++ ("$1,250.00".toList ++ post) := by
            have h1 : rest
                = (pre' ++ ("$1,250.00".toList ++ post)).drop consumed.length := by
              rw [htail, List.drop_left]
            rw [h1, List.drop_append_eq_append_drop,
              Nat.sub_eq_zero_of_le hdle, List.drop_zero]
          rw [hrest_eq]
          have hd1 : (pre'.drop consumed.length).length ≤ k := by
            rw [List.length_drop]; omega
          have hd2 : (pre'.drop consumed.length).length < scan' := by
            rw [List.length_drop]; omega
          exact ih (pre'.drop consumed.length) post _ scan' m hd1 hd2

/-- Every body mentioning `$1,250.00` yields it in the pattern-1 scan. -/
theorem mention_in_findAll (pre post : String) :
    "$1,250.00" ∈ reFindAll currencyPattern1 (pre ++ "$1,250.00" ++ post) := by
  unfold reFindAll
  apply List.mem_map.mpr
  refine ⟨"$1,250.00".toList, ?_, rfl⟩
  have hdata : (pre ++ "$1,250.00" ++ post).toList
      = pre.toList ++ ("$1,250.00".toList ++ post.toList) := by
    simp [String.toList]
  have hlen : pre.toList.length < (pre ++ "$1,250.00" ++ post).length + 1 := by
    rw [show (pre ++ "$1,250.00" ++ post).length
        = (pre ++ "$1,250.00" ++ post).toList.length from rfl, hdata]
    simp [List.length_append]
    omega
  rw [hdata]
  exact findAll_p1_hits pre.toList.length pre.toList post.toList none
    ((pre ++ "$1,250.00" ++ post).length + 1)
    ((pre.toList ++ ("$1,250.00".toList ++ post.toList)).length * 200)
    (le_refl _) hlen

/-- `foldl max` over rationals picks an element that dominates the list. -/
theorem foldl_max_spec (vs : List ℚ) : ∀ v : ℚ,
    vs.foldl max v ∈ v :: vs ∧ ∀ x ∈ v :: vs, x ≤ vs.foldl max v := by
  induction vs with
  | nil =>
    intro v
    refine ⟨List.mem_singleton.mpr rfl, ?_⟩
    intro x hx
    rw [List.mem_singleton.mp hx]
    exact le_refl _
  | cons w ws ih =>
    intro v
    obtain ⟨hmem, hle⟩ := ih (max v w)
    constructor
    · rw [List.foldl_cons]
      rcases List.mem_cons.mp hmem with h | h
      · rcases max_choice v w with hvw | hvw
        · rw [h, hvw]; exact List.mem_cons_self _ _
        · rw [h, hvw]
          exact List.mem_cons_of_mem _ (List.mem_cons_self _ _)
      · exact List.mem_cons_of_mem _ (List.mem_cons_of_mem _ h)
    · intro x hx
      rw [List.foldl_cons]
      rcases List.mem_cons.mp hx with h | h
      · subst h
        exact le_trans (le_max_left x w) (hle _ (List.mem_cons_self _ _))
      · rcases List.mem_cons.mp h with h2 | h2
        · subst h2
          exact le_trans (le_max_right v x) (hle _ (List.mem_cons_self _ _))
        · exact hle x (List.mem_cons_of_mem _ h2)

/-- Whenever at least one amount parses, `_estimate_potential_value` returns
precisely the maximum of the parsed amounts, for every intent. -/
theorem estimate_is_max (intent : String) (amounts : List String)
    (hne : amounts.filterMap (fun a => pyFloatOfCleaned (cleanAmount a)) ≠ []) :
    ∃ mx : ℚ, estimate_potential_value intent amounts = some mx ∧
      mx ∈ amounts.filterMap (fun a => pyFloatOfCleaned (cleanAmount a)) ∧
      ∀ v ∈ amounts.filterMap (fun a => pyFloatOfCleaned (cleanAmount a)),
        v ≤ mx := by
  unfold estimate_potential_value
  have hae : amounts.isEmpty = false := by
    cases amounts with
    | nil => exact absurd rfl hne
    | cons a as => rfl
  rw [if_neg (by simp [hae])]
  rcases hv : amounts.filterMap (fun a => pyFloatOfCleaned (cleanAmount a)) with
    _ | ⟨v, vs⟩
  · exact absurd hv hne
  · obtain ⟨hmem, hle⟩ := foldl_max_spec vs v
    exact ⟨vs.foldl max v, rfl, hv ▸ hmem, fun x hx => hle x (hv ▸ hx)⟩

/-- C10 counterexample: an email whose subject is `URGENT refund request` and
whose body mentions `$1,250.00` — alongside `$5,000.00`.  Urgency is `high`
and the amounts list contains `$1,250.00`, but `potential_value` is the
maximum mentioned amount, `5000.0`, not `1250.0`: the claim's
`potential_value = 1250.0` does not hold for every such email. -/
theorem c10_counterexample :
    determine_urgency "URGENT refund request" "Refund $1,250.00 or $5,000.00 today." = "high" ∧
    extract_amounts "Refund $1,250.00 or $5,000.00 today."
      = ["$1,250.00", "$5,000.00"] ∧
    estimate_potential_value "complaint"
        (extract_amounts "Refund $1,250.00 or $5,000.00 today.") = some 5000 ∧
    (5000 : ℚ) ≠ 1250 := by
  refine ⟨rfl, rfl, rfl, ?_⟩
  norm_num

/-- C10 (amended): with subject `URGENT refund request` the urgency is `high`
for every body; for every body that mentions `$1,250.00` (any prefix and
suffix around it), `$1,250.00` is among the extracted amounts; for every
intent and amounts list with a non-empty parse, the estimated potential value
is exactly the maximum of the parsed mentioned amounts; and on the scenario
body, where `$1,250.00` is the only mentioned amount, the extracted amounts
are exactly `["$1,250.00"]` and the potential value is `1250.0`. -/
theorem c10_amended :
    (∀ body : String,
      determine_urgency "URGENT refund request" body = "high") ∧
    (∀ pre post : String,
      "$1,250.00" ∈ extract_amounts (pre ++ "$1,250.00" ++ post)) ∧
    (∀ (intent : String) (amounts : List String),
      amounts.filterMap (fun a => pyFloatOfCleaned (cleanAmount a)) ≠ [] →
      ∃ mx : ℚ, estimate_potential_value intent amounts = some mx ∧
        mx ∈ amounts.filterMap (fun a => pyFloatOfCleaned (cleanAmount a)) ∧
        ∀ v ∈ amounts.filterMap (fun a => pyFloatOfCleaned (cleanAmount a)),
          v ≤ mx) ∧
    extract_amounts "Please refund $1,250.00 for my order." = ["$1,250.00"] ∧
    estimate_potential_value "complaint"
        (extract_amounts "Please refund $1,250.00 for my order.") = some 1250 := by
  refine ⟨fun _ => rfl, ?_, estimate_is_max, rfl, rfl⟩
  intro pre post
  unfold extract_amounts
  apply List.mem_append_left
  apply List.mem_append_left
  exact mention_in_findAll pre post

/-- C10 (amended) witness: the universal clauses applied at concrete inputs,
with the non-empty-parse hypothesis discharged by evaluation. -/
theorem c10_amended_witness :
    determine_urgency "URGENT refund request" "Where is my money?" = "high" ∧
    "$1,250.00" ∈ extract_amounts ("Pay " ++ "$1,250.00" ++ " now.") ∧
    (["$1,250.00", "$5,000.00"] : List String).filterMap
        (fun a => pyFloatOfCleaned (cleanAmount a)) ≠ [] ∧
    ∃ mx : ℚ,
      estimate_potential_value "complaint" ["$1,250.00", "$5,000.00"]
          = some mx ∧
      mx ∈ (["$1,250.00", "$5,000.00"] : List String).filterMap
        (fun a => pyFloatOfCleaned (cleanAmount a)) ∧
      ∀ v ∈ (["$1,250.00", "$5,000.00"] : List String).filterMap
        (fun a => pyFloatOfCleaned (cleanAmount a)), v ≤ mx := by
  have hne : (["$1,250.00", "$5,000.00"] : List String).filterMap
      (fun a => pyFloatOfCleaned (cleanAmount a)) ≠ [] := by decide
  exact ⟨c10_amended.1 _, c10_amended.2.1 "Pay " " now.", hne,
    c10_amended.2.2.1 "complaint" _ hne⟩

/-! ## Classifier (`src/agents/classifier_agent.py`), JSON-schema validation,
handlers' `process`, and the orchestrator (`src/main.py`)

The external collaborators (format detection, intent detection, content
parsing, uuid, timestamps) enter as parameters, per the spec's scope. -/

/-- The supported formats `self.supported_formats`. -/
def supported_formats : List String := ["pdf", "json", "email"]

/-- Round to the nearest integer, ties to even, over exact rationals —
`f"\x7bx:.2f\x7d"` rounding at the scaled value.  (Python formats the binary
double; the two agree on every claim-relevant value.) -/
def roundHalfEvenRat (q : ℚ) : Int :=
  let n := q.num
  let d : Int := (q.den : Int)
  let fl := Int.fdiv n d
  let r := n - d * fl
  if 2 * r < d then fl
  else if d < 2 * r then fl + 1
  else if fl % 2 = 0 then fl else fl + 1

/-- Two-digit zero padding. -/
def pad2 (n : Nat) : String := if n < 10 then "0" ++ toString n else toString n

/-- `f"\x7bconfidence:.2f\x7d"`. -/
def fmtF2 (q : ℚ) : String :=
  let scaled := roundHalfEvenRat (q * 100)
  if scaled < 0 then
    let a := (-scaled).toNat
    "-" ++ toString (a / 100) ++ "." ++ pad2 (a % 100)
  else
    let a := scaled.toNat
    toString (a / 100) ++ "." ++ pad2 (a % 100)

/-- The metadata dict the classifier writes
(`\x7b'confidence': ..., 'content_sample': str(content)[:200] if content else None\x7d`). -/
def classifierMetadata (confidence : ℚ) (content : JVal) : List (String × JVal) :=
  [("confidence", JVal.num confidence),
   ("content_sample",
     if pyTruthy content then JVal.str ((pyStr content).take 200) else JVal.null)]

/-- The routing reason f-string
(`f"Detected format: \x7bformat_type\x7d, intent: \x7bintent\x7d with confidence: \x7bconfidence:.2f\x7d"`). -/
def classifierReason (format_type intent : String) (confidence : ℚ) : String :=
  "Detected format: " ++ format_type ++ ", intent: " ++ intent
    ++ " with confidence: " ++ fmtF2 confidence

/-- The error dict for an unsupported format. -/
def unsupportedResult (format_type : String) : JVal :=
  JVal.obj [("status", JVal.str "error"),
    ("message", JVal.str ("Unsupported file format: " ++ format_type)),
    ("format", JVal.str format_type)]

/-- `ClassifierAgent.process`, with the detector outputs (`format_type`,
`intent`, `confidence`, parsed `content`), the generated `thread_id` and the
two timestamps as parameters.  Returns the result dict and the store. -/
def classifier_process (s : Store) (file_path format_type intent : String)
    (confidence : ℚ) (content : JVal) (thread_id ts1 ts2 : String) :
    JVal × Store :=
  if supported_formats.contains format_type then
    let s1 := create_thread s file_path format_type intent thread_id ts1
    let s2 := update_metadata s1 thread_id (classifierMetadata confidence content)
    let target_agent := if format_type == "json" then "json_agent" else "email_agent"
    let s3 := log_routing s2 thread_id ts2 "classifier_agent" target_agent
      (classifierReason format_type intent confidence)
    (JVal.obj [("status", JVal.str "success"),
      ("thread_id", JVal.str thread_id),
      ("format", JVal.str format_type),
      ("intent", JVal.str intent),
      ("confidence", JVal.num confidence),
      ("target_agent", JVal.str target_agent),
      ("content", content)], s3)
  else
    (unsupportedResult format_type, s)

/-- One formatted validation error (`path`, `message`). -/
def joinDot (ps : List String) : String :=
  if ps.isEmpty then "root" else String.intercalate "." ps

/-- `Draft7Validator.iter_errors` restricted to the schema vocabulary the
registry uses (`type`, `required`, `properties`, `items`); error messages are
schematic, no claim depends on their text.  The fuel bounds the recursion
depth and always exceeds the registry's schema depth. -/
def draftErrors : Nat → JSchema → List String → JVal → List (String × String)
  | 0, _, _, _ => []
  | fuel + 1, schema, path, v =>
    let typeErrs := match schema.typeSpec with
      | none => []
      | some ts =>
        if (ts.validTypes).contains (getJsonType v) then []
        else [(joinDot path, getJsonType v ++ " is not of type " ++ ts.pyText)]
    let reqErrs := match schema.required, v with
      | some req, .obj kvs =>
        (req.filter (fun f => !(hasKey kvs f))).map
          (fun f => (joinDot path, pyReprStr f ++ " is a required property"))
      | _, _ => []
    let propErrs := match schema.properties, v with
      | some props, .obj kvs =>
        props.flatMap (fun fs =>
          match kvs.lookup fs.1 with
          | some w => draftErrors fuel fs.2 (path ++ [fs.1]) w
          | none => [])
      | _, _ => []
    let itemErrs := match schema.items, v with
      | some isch, .arr elems =>
        (elems.enum).flatMap (fun iw => draftErrors fuel isch (path ++ [toString iw.1]) iw.2)
      | _, _ => []
    typeErrs ++ reqErrs ++ propErrs ++ itemErrs

/-- `JSONAgent._validate_json`: schema found → valid/errors dict; no schema →
`valid: None` with a message. -/
def validate_json (schemas : List (String × JSchema)) (content : JVal)
    (intent : String) : JVal :=
  match schemas.lookup intent with
  | some schema =>
    let errs := draftErrors 8 schema [] content
    if errs.isEmpty then
      JVal.obj [("valid", JVal.bool true), ("schema", JVal.str intent),
        ("errors", JVal.arr [])]
    else
      JVal.obj [("valid", JVal.bool false), ("schema", JVal.str intent),
        ("errors", JVal.arr (errs.map (fun e =>
          JVal.obj [("path", JVal.str e.1), ("message", JVal.str e.2)])))]
  | none =>
    JVal.obj [("valid", JVal.null), ("schema", JVal.null),
      ("message", JVal.str ("No schema available for intent: " ++ intent))]

/-- An anomaly record as the dict the code appends. -/
def anomalyJ (a : Anomaly) : JVal :=
  JVal.obj [("field", JVal.str a.field), ("issue", JVal.str a.issue),
    ("value", JVal.str a.value)]

/-- `JSONAgent.process`.  Python side effects survive an exception, so the
final store is returned together with `Except`-modelled success or raise.
A list content behaves like an empty dict for every membership test the
handler performs; other non-dict contents raise (and cannot reach the handler
through the pipeline). -/
def json_process (schemas : List (String × JSchema)) (s : Store) (tid : String)
    (content : JVal) : Store × Except String JVal :=
  let s1 := update_status s tid "processing_json"
  match get_thread_info s1 tid with
  | none => (s1, .error "TypeError")
  | some info =>
    let intent := info.row.intent
    let vr := validate_json schemas content intent
    let s2 := store_extracted_field s1 tid "validation_result" vr
    let go := fun (kvs : List (String × JVal)) =>
      match extract_fields kvs intent with
      | .error e => (s2, Except.error e)
      | .ok extracted =>
        let s3 := extracted.foldl (fun st p => store_extracted_field st tid p.1 p.2) s2
        let dq := check_data_quality schemas kvs intent
        let s4 := if dq.1.isEmpty then s3
          else store_extracted_field s3 tid "missing_fields"
            (JVal.arr (dq.1.map JVal.str))
        let s5 := if dq.2.isEmpty then s4
          else store_extracted_field s4 tid "anomalous_fields"
            (JVal.arr (dq.2.map anomalyJ))
        let s6 := update_status s5 tid "completed"
        (s6, Except.ok (JVal.obj [
          ("status", JVal.str "success"),
          ("thread_id", JVal.str tid),
          ("validation", vr),
          ("extracted_fields", JVal.obj extracted),
          ("data_quality", JVal.obj [
            ("missing_fields", JVal.arr (dq.1.map JVal.str)),
            ("anomalous_fields", JVal.arr (dq.2.map anomalyJ))])]))
    match content with
    | .obj kvs => go kvs
    | .arr _ => go []
    | _ => (s2, .error "TypeError")

/-- The CRM dict built by `EmailAgent._normalize_to_crm` (which reads the
thread's `intent` and `timestamp` from the store). -/
def crmData (sender subject urgency : String) (domain : Option String)
    (contacts dates amounts : List String) (intent timestamp : String) : JVal :=
  JVal.obj [
    ("contact", JVal.obj [
      ("email", JVal.str sender),
      ("domain", JVal.str (domain.getD "")),
      ("organization", JVal.str (domain.getD "")),
      ("related_contacts", JVal.arr (contacts.map JVal.str))]),
    ("communication", JVal.obj [
      ("channel", JVal.str "email"),
      ("subject", JVal.str subject),
      ("urgency", JVal.str urgency),
      ("category", JVal.str intent),
      ("received_date", JVal.str timestamp),
      ("mentioned_dates", JVal.arr (dates.map JVal.str))]),
    ("business", JVal.obj [
      ("mentioned_amounts", JVal.arr (amounts.map JVal.str)),
      ("potential_value",
        match estimate_potential_value intent amounts with
        | some q => JVal.num q
        | none => JVal.null),
      ("follow_up_required", JVal.bool (!(urgency == "low")))])]

/-- `EmailAgent.process`.  Sender/subject/date are stored first; a non-string
sender raises in `_extract_domain` (after three stores), a non-string
subject/body raises in `_determine_urgency` (after the domain store); with
string fields every later step is total. -/
def email_process (s : Store) (tid : String) (content : JVal) :
    Store × Except String JVal :=
  let s1 := update_status s tid "processing_email"
  match content with
  | .obj kvs =>
    let senderV := (kvs.lookup "from").getD (JVal.str "")
    let subjectV := (kvs.lookup "subject").getD (JVal.str "")
    let bodyV := (kvs.lookup "body").getD (JVal.str "")
    let dateV := (kvs.lookup "date").getD (JVal.str "")
    let s2 := store_extracted_field s1 tid "sender" senderV
    let s3 := store_extracted_field s2 tid "subject" subjectV
    let s4 := store_extracted_field s3 tid "date" dateV
    match senderV with
    | .str sender =>
      let s5 := (extract_domain sender).elim s4
        (fun d => store_extracted_field s4 tid "sender_domain" (JVal.str d))
      match subjectV, bodyV with
      | .str subject, .str body =>
        let urgency := determine_urgency subject body
        let s6 := store_extracted_field s5 tid "urgency" (JVal.str urgency)
        let contacts := extract_contacts body
        let s7 := if contacts.isEmpty then s6
          else store_extracted_field s6 tid "mentioned_contacts"
            (JVal.arr (contacts.map JVal.str))
        let dates := extract_dates body
        let s8 := if dates.isEmpty then s7
          else store_extracted_field s7 tid "mentioned_dates"
            (JVal.arr (dates.map JVal.str))
        let amounts := extract_amounts body
        let s9 := if amounts.isEmpty then s8
          else store_extracted_field s8 tid "mentioned_amounts"
            (JVal.arr (amounts.map JVal.str))
        (get_thread_info s9 tid).elim (s9, .error "TypeError") (fun info =>
          let crm := crmData sender subject urgency (extract_domain sender)
            contacts dates amounts info.row.intent info.row.timestamp
          let s10 := store_extracted_field s9 tid "crm_normalized" crm
          let s11 := update_status s10 tid "completed"
          (s11, .ok (JVal.obj [
            ("status", JVal.str "success"),
            ("thread_id", JVal.str tid),
            ("extracted_fields", JVal.obj [
              ("sender", senderV),
              ("subject", subjectV),
              ("urgency", JVal.str urgency),
              ("sender_domain",
                match extract_domain sender with
                | some d => JVal.str d
                | none => JVal.null),
              ("contacts", JVal.arr (contacts.map JVal.str)),
              ("dates", JVal.arr (dates.map JVal.str)),
              ("amounts", JVal.arr (amounts.map JVal.str))]),
            ("crm_normalized", crm)])))
      | _, _ => (s5, .error "TypeError")
    | _ => (s4, .error "TypeError")
  | _ => (s1, .error "AttributeError")

/-- Read a string out of a result dict (`classification["key"]`); the default
is unreachable on the success dicts it is applied to. -/
def jLookup (j : JVal) (k : String) : Option JVal :=
  match j with
  | .obj kvs => kvs.lookup k
  | _ => none

def getStrD : Option JVal → String
  | some (.str s) => s
  | _ => ""

/-- `MultiAgentSystem.process_document`: existence check, classification,
non-success propagated unchanged, dispatch by `target_agent`, per-thread
export path, combined result; any handler raise is caught at this boundary
and becomes `\x7bstatus: error, message\x7d`. -/
def process_document (schemas : List (String × JSchema)) (s : Store)
    (file_exists : Bool) (file_path format_type intent : String)
    (confidence : ℚ) (content : JVal) (thread_id ts1 ts2 : String) :
    JVal × Store :=
  if file_exists then
    let c := classifier_process s file_path format_type intent confidence content
      thread_id ts1 ts2
    let classification := c.1
    let s1 := c.2
    let isSuccess := match jLookup classification "status" with
      | some (.str st) => st == "success"
      | _ => false
    if isSuccess then
      let tid := getStrD (jLookup classification "thread_id")
      let fmt := getStrD (jLookup classification "format")
      let target := getStrD (jLookup classification "target_agent")
      let handlerContent := (jLookup classification "content").getD JVal.null
      let finish := fun (p : Store × Except String JVal) =>
        match p.2 with
        | .error e =>
          (JVal.obj [("status", JVal.str "error"), ("message", JVal.str e)], p.1)
        | .ok result =>
          (JVal.obj [
            ("status", JVal.str "success"),
            ("thread_id", JVal.str tid),
            ("format", JVal.str fmt),
            ("intent", (jLookup classification "intent").getD JVal.null),
            ("processing_result", result),
            ("output_path", JVal.str ("outputs/document_" ++ tid ++ ".json"))], p.1)
      if target == "email_agent" then
        finish (email_process s1 tid handlerContent)
      else if target == "json_agent" then
        finish (json_process schemas s1 tid handlerContent)
      else
        (JVal.obj [("status", JVal.str "error"),
          ("message", JVal.str ("Unknown target agent: " ++ target))], s1)
    else
      (classification, s1)
  else
    (JVal.obj [("status", JVal.str "error"),
      ("message", JVal.str ("File not found: " ++ file_path))], s)

/-- C5: for a supported detected format and a fresh thread id, one classifier
call appends exactly one `memory` row (status `"started"`, with the metadata
it wrote), touches no field rows, appends exactly one routing entry whose
reason embeds the detected format, the intent and the formatted confidence,
routes `json → json_agent` and every other supported format to `email_agent`,
and returns the full success dict. -/
theorem c5_classifier_roundtrip (s : Store) (file_path format_type intent : String)
    (confidence : ℚ) (content : JVal) (tid ts1 ts2 : String)
    (hsupp : supported_formats.contains format_type = true)
    (hfresh : threadExists s tid = false) :
    (classifier_process s file_path format_type intent confidence content tid ts1 ts2).2.memory
      = s.memory ++ [⟨tid, file_path, ts1, format_type, intent, "started",
          dumps (JVal.obj (classifierMetadata confidence content))⟩] ∧
    (classifier_process s file_path format_type intent confidence content tid ts1 ts2).2.fields
      = s.fields ∧
    (classifier_process s file_path format_type intent confidence content tid ts1 ts2).2.routing
      = s.routing ++ [⟨tid, ts2, "classifier_agent",
          (if format_type == "json" then "json_agent" else "email_agent"),
          classifierReason format_type intent confidence⟩] ∧
    (∃ l r, classifierReason format_type intent confidence = l ++ format_type ++ r) ∧
    (∃ l r, classifierReason format_type intent confidence = l ++ intent ++ r) ∧
    (∃ l r, classifierReason format_type intent confidence = l ++ fmtF2 confidence ++ r) ∧
    (classifier_process s file_path format_type intent confidence content tid ts1 ts2).1
      = JVal.obj [("status", JVal.str "success"), ("thread_id", JVal.str tid),
          ("format", JVal.str format_type), ("intent", JVal.str intent),
          ("confidence", JVal.num confidence),
          ("target_agent",
            JVal.str (if format_type == "json" then "json_agent" else "email_agent")),
          ("content", content)] := by
  unfold classifier_process
  rw [if_pos hsupp]
  refine ⟨?_, rfl, rfl, ?_, ?_, ?_, rfl⟩
  · show (s.memory ++ [(⟨tid, file_path, ts1, format_type, intent, "started", "\x7b\x7d"⟩ :
        ThreadRow)]).map
        (fun r => if r.thread_id == tid then
          { r with metadata := dumps (JVal.obj (classifierMetadata confidence content)) }
          else r)
      = s.memory ++ [⟨tid, file_path, ts1, format_type, intent, "started",
          dumps (JVal.obj (classifierMetadata confidence content))⟩]
    rw [List.map_append, map_row_ite_of_not_any s.memory tid _ hfresh]
    simp [beq_self_eq_true]
  · exact ⟨"Detected format: ",
      ", intent: " ++ intent ++ " with confidence: " ++ fmtF2 confidence,
      by simp [classifierReason, String.append_assoc]⟩
  · exact ⟨"Detected format: " ++ format_type ++ ", intent: ",
      " with confidence: " ++ fmtF2 confidence,
      by simp [classifierReason, String.append_assoc]⟩
  · exact ⟨"Detected format: " ++ format_type ++ ", intent: " ++ intent
        ++ " with confidence: ", "",
      by simp [classifierReason, String.append_assoc]⟩

/-- C6: for an unsupported detected format, the classifier returns the error
dict carrying the detected format without touching the store, and
`process_document` propagates that very result unchanged, the store still
untouched. -/
theorem c6_unsupported_propagates (schemas : List (String × JSchema)) (s : Store)
    (file_path format_type intent : String) (confidence : ℚ) (content : JVal)
    (tid ts1 ts2 : String)
    (hunsupp : supported_formats.contains format_type = false) :
    classifier_process s file_path format_type intent confidence content tid ts1 ts2
      = (unsupportedResult format_type, s) ∧
    jLookup (unsupportedResult format_type) "status" = some (JVal.str "error") ∧
    jLookup (unsupportedResult format_type) "format" = some (JVal.str format_type) ∧
    process_document schemas s true file_path format_type intent confidence content
        tid ts1 ts2
      = (unsupportedResult format_type, s) := by
  have hcp : classifier_process s file_path format_type intent confidence content tid ts1 ts2
      = (unsupportedResult format_type, s) := by
    unfold classifier_process
    rw [if_neg (by rw [hunsupp]; exact Bool.false_ne_true)]
  refine ⟨hcp, rfl, ?_, ?_⟩
  · show List.lookup "format" [("status", JVal.str "error"),
        ("message", JVal.str ("Unsupported file format: " ++ format_type)),
        ("format", JVal.str format_type)] = some (JVal.str format_type)
    rfl
  · unfold process_document
    rw [if_pos rfl, hcp]
    rfl

/-- The content used to instantiate C5. -/
def c5Content : JVal := JVal.obj [("type", JVal.str "invoice")]

/-- C5 witness: the classifier round-trip instantiated at a json input on the
empty store. -/
theorem c5_witness :
    supported_formats.contains "json" = true ∧
    threadExists emptyStore "t5" = false ∧
    ((classifier_process emptyStore "inbox/doc.json" "json" "invoice" 1 c5Content
          "t5" "ts1" "ts2").2.memory
        = emptyStore.memory ++ [⟨"t5", "inbox/doc.json", "ts1", "json", "invoice", "started",
            dumps (JVal.obj (classifierMetadata 1 c5Content))⟩] ∧
      (classifier_process emptyStore "inbox/doc.json" "json" "invoice" 1 c5Content
          "t5" "ts1" "ts2").2.fields = emptyStore.fields ∧
      (classifier_process emptyStore "inbox/doc.json" "json" "invoice" 1 c5Content
          "t5" "ts1" "ts2").2.routing
        = emptyStore.routing ++ [⟨"t5", "ts2", "classifier_agent",
            (if "json" == "json" then "json_agent" else "email_agent"),
            classifierReason "json" "invoice" 1⟩] ∧
      (∃ l r, classifierReason "json" "invoice" 1 = l ++ "json" ++ r) ∧
      (∃ l r, classifierReason "json" "invoice" 1 = l ++ "invoice" ++ r) ∧
      (∃ l r, classifierReason "json" "invoice" 1 = l ++ fmtF2 1 ++ r) ∧
      (classifier_process emptyStore "inbox/doc.json" "json" "invoice" 1 c5Content
          "t5" "ts1" "ts2").1
        = JVal.obj [("status", JVal.str "success"), ("thread_id", JVal.str "t5"),
            ("format", JVal.str "json"), ("intent", JVal.str "invoice"),
            ("confidence", JVal.num 1),
            ("target_agent",
              JVal.str (if "json" == "json" then "json_agent" else "email_agent")),
            ("content", c5Content)]) :=
  ⟨rfl, rfl, c5_classifier_roundtrip emptyStore "inbox/doc.json" "json" "invoice" 1
    c5Content "t5" "ts1" "ts2" rfl rfl⟩

/-- C6 witness: the unsupported-format path instantiated at a `.docx` input
whose detected format is `"unknown"`. -/
theorem c6_witness :
    supported_formats.contains "unknown" = false ∧
    (classifier_process emptyStore "report.docx" "unknown" "unknown" 0 JVal.null
        "t6" "ts1" "ts2"
      = (unsupportedResult "unknown", emptyStore) ∧
    jLookup (unsupportedResult "unknown") "status" = some (JVal.str "error") ∧
    jLookup (unsupportedResult "unknown") "format" = some (JVal.str "unknown") ∧
    process_document defaultSchemas emptyStore true "report.docx" "unknown" "unknown" 0
        JVal.null "t6" "ts1" "ts2"
      = (unsupportedResult "unknown", emptyStore)) :=
  ⟨rfl, c6_unsupported_propagates defaultSchemas emptyStore "report.docx" "unknown"
    "unknown" 0 JVal.null "t6" "ts1" "ts2" rfl⟩

/-! ## Status-discipline lemmas for the handlers (C9) -/

@[simp] theorem statusOf_store (s : Store) (t n : String) (v : JVal) (tid : String) :
    statusOf (store_extracted_field s t n v) tid = statusOf s tid := rfl

@[simp] theorem statusOf_ite (c : Prop) [Decidable c] (a b : Store) (tid : String) :
    statusOf (if c then a else b) tid
      = if c then statusOf a tid else statusOf b tid := by
  by_cases h : c
  · rw [if_pos h, if_pos h]
  · rw [if_neg h, if_neg h]

@[simp] theorem threadExists_store (s : Store) (t n : String) (v : JVal) (tid : String) :
    threadExists (store_extracted_field s t n v) tid = threadExists s tid := rfl

@[simp] theorem threadExists_ite (c : Prop) [Decidable c] (a b : Store) (tid : String) :
    threadExists (if c then a else b) tid
      = if c then threadExists a tid else threadExists b tid := by
  by_cases h : c
  · rw [if_pos h, if_pos h]
  · rw [if_neg h, if_neg h]

theorem foldl_store_memory (t : String) (l : List (String × JVal)) (s : Store) :
    (l.foldl (fun st p => store_extracted_field st t p.1 p.2) s).memory = s.memory := by
  induction l generalizing s with
  | nil => rfl
  | cons p ps ih => exact ih _

@[simp] theorem threadExists_foldl_store (t : String) (l : List (String × JVal))
    (s : Store) (tid : String) :
    threadExists (l.foldl (fun st p => store_extracted_field st t p.1 p.2) s) tid
      = threadExists s tid := by
  unfold threadExists
  rw [foldl_store_memory]

@[simp] theorem statusOf_foldl_store (t : String) (l : List (String × JVal))
    (s : Store) (tid : String) :
    statusOf (l.foldl (fun st p => store_extracted_field st t p.1 p.2) s) tid
      = statusOf s tid := by
  unfold statusOf
  rw [foldl_store_memory]

@[simp] theorem statusOf_opt_elim (o : Option String) (s4 : Store) (t n : String)
    (f : String → JVal) (tid : String) :
    statusOf (o.elim s4 (fun d => store_extracted_field s4 t n (f d))) tid
      = statusOf s4 tid := by
  cases o <;> rfl

@[simp] theorem threadExists_opt_elim (o : Option String) (s4 : Store) (t n : String)
    (f : String → JVal) (tid : String) :
    threadExists (o.elim s4 (fun d => store_extracted_field s4 t n (f d))) tid
      = threadExists s4 tid := by
  cases o <;> rfl

/-- The status a handler leaves behind: `completed` on a normal return, the
intermediate processing value when the call raised. -/
def statusAfter (r : Except String JVal) (processing : String) : String :=
  match r with
  | .ok _ => "completed"
  | .error _ => processing

/-- Status bookkeeping for the tail of the email handler (thread lookup, CRM
store, final `completed` transition). -/
theorem statusOf_gti_elim (s9 : Store) (tid : String)
    (crm res : ThreadInfo → JVal)
    (hte : threadExists s9 tid = true)
    (hst : statusOf s9 tid = some "processing_email") :
    statusOf ((get_thread_info s9 tid).elim ((s9, Except.error "TypeError"))
        (fun info =>
          (update_status (store_extracted_field s9 tid "crm_normalized" (crm info))
            tid "completed", Except.ok (res info)))).1 tid
      = some (statusAfter ((get_thread_info s9 tid).elim ((s9, Except.error "TypeError"))
          (fun info =>
            (update_status (store_extracted_field s9 tid "crm_normalized" (crm info))
              tid "completed", Except.ok (res info)))).2 "processing_email") := by
  cases get_thread_info s9 tid with
  | none => exact hst
  | some info => exact statusOf_update_status "completed" hte

/-- C9: with an existing thread, each handler first sets the handler-specific
processing status; the final status is `completed` exactly when the call
returns instead of raising, and stays at the processing value when an
intermediate step raises (no rollback).  The orchestrator converts a handler
raise into a `\x7bstatus: error, message\x7d` result. -/
theorem c9_status_discipline (schemas : List (String × JSchema)) (s : Store)
    (tid : String) (kvs ekvs : List (String × JVal))
    (h : threadExists s tid = true) :
    statusOf (json_process schemas s tid (JVal.obj kvs)).1 tid
      = some (statusAfter (json_process schemas s tid (JVal.obj kvs)).2
          "processing_json") ∧
    statusOf (email_process s tid (JVal.obj ekvs)).1 tid
      = some (statusAfter (email_process s tid (JVal.obj ekvs)).2
          "processing_email") ∧
    (∀ (s0 : Store) (fp it : String) (conf : ℚ) (t0 ts1 ts2 e : String),
      (json_process schemas
            (classifier_process s0 fp "json" it conf (JVal.obj kvs) t0 ts1 ts2).2
            t0 (JVal.obj kvs)).2 = Except.error e →
      (process_document schemas s0 true fp "json" it conf (JVal.obj kvs)
            t0 ts1 ts2).1
        = JVal.obj [("status", JVal.str "error"), ("message", JVal.str e)]) := by
  refine ⟨?_, ?_, ?_⟩
  · unfold json_process
    dsimp only
    rcases hg : get_thread_info (update_status s tid "processing_json") tid with _ | info
    · exact statusOf_update_status "processing_json" h
    · dsimp only
      rcases hex : extract_fields kvs info.row.intent with e | extracted
      · exact statusOf_update_status "processing_json" h
      · dsimp only
        apply statusOf_update_status
        simp only [threadExists_ite, threadExists_store, threadExists_foldl_store,
          ite_self, threadExists_update_status]
        exact h
  · unfold email_process
    dsimp only
    rcases hs : (ekvs.lookup "from").getD (JVal.str "") with _ | b | x | t | el | en
    case null => exact statusOf_update_status "processing_email" h
    case bool => exact statusOf_update_status "processing_email" h
    case num => exact statusOf_update_status "processing_email" h
    case arr => exact statusOf_update_status "processing_email" h
    case obj => exact statusOf_update_status "processing_email" h
    case str =>
      rcases hsub : (ekvs.lookup "subject").getD (JVal.str "")
          with _ | b2 | x2 | t2 | el2 | en2 <;>
        first
        | (simp only [statusOf_opt_elim]
           exact statusOf_update_status "processing_email" h)
        | (rcases hbody : (ekvs.lookup "body").getD (JVal.str "")
              with _ | b3 | x3 | t3 | el3 | en3 <;>
            first
            | (simp only [statusOf_opt_elim]
               exact statusOf_update_status "processing_email" h)
            | (dsimp only
               apply statusOf_gti_elim
               · simp only [threadExists_ite, threadExists_store, threadExists_opt_elim,
                   ite_self, threadExists_update_status]
                 exact h
               · simp only [statusOf_ite, statusOf_store, statusOf_opt_elim, ite_self]
                 exact statusOf_update_status "processing_email" h))
  · intro s0 fp it conf t0 ts1 ts2 e he
    unfold classifier_process at he
    rw [if_pos (show supported_formats.contains "json" = true from rfl)] at he
    dsimp only at he
    unfold process_document classifier_process
    rw [if_pos (show true = true from rfl),
      if_pos (show supported_formats.contains "json" = true from rfl)]
    dsimp only [jLookup, getStrD]
    simp only [List.lookup, String.reduceBEq, beq_self_eq_true, if_true,
      Bool.false_eq_true, if_false, Option.getD_some] at he ⊢
    rw [he]

/-- A one-thread store for instantiating C9. -/
def c9Store : Store := create_thread emptyStore "m.json" "json" "invoice" "t9" "ts"

/-- Invoice content whose string `amount` makes the json handler raise. -/
def c9Kvs : List (String × JVal) :=
  [("items", JVal.arr [JVal.obj [("amount", JVal.str "10")]])]

/-- A small well-formed email content. -/
def c9Ekvs : List (String × JVal) :=
  [("from", JVal.str "a@b.co"), ("subject", JVal.str "hi"),
   ("body", JVal.str "ok"), ("date", JVal.str "")]

/-- C9 witness: the status discipline instantiated at a raising json call and
a completing email call, with the two statuses also evaluated concretely. -/
theorem c9_witness :
    threadExists c9Store "t9" = true ∧
    (statusOf (json_process defaultSchemas c9Store "t9" (JVal.obj c9Kvs)).1 "t9"
        = some (statusAfter (json_process defaultSchemas c9Store "t9" (JVal.obj c9Kvs)).2
            "processing_json") ∧
      statusOf (email_process c9Store "t9" (JVal.obj c9Ekvs)).1 "t9"
        = some (statusAfter (email_process c9Store "t9" (JVal.obj c9Ekvs)).2
            "processing_email") ∧
      (∀ (s0 : Store) (fp it : String) (conf : ℚ) (t0 ts1 ts2 e : String),
        (json_process defaultSchemas
              (classifier_process s0 fp "json" it conf (JVal.obj c9Kvs) t0 ts1 ts2).2
              t0 (JVal.obj c9Kvs)).2 = Except.error e →
        (process_document defaultSchemas s0 true fp "json" it conf (JVal.obj c9Kvs)
              t0 ts1 ts2).1
          = JVal.obj [("status", JVal.str "error"), ("message", JVal.str e)])) ∧
    (json_process defaultSchemas c9Store "t9" (JVal.obj c9Kvs)).2
      = Except.error "TypeError" ∧
    statusOf (json_process defaultSchemas c9Store "t9" (JVal.obj c9Kvs)).1 "t9"
      = some "processing_json" ∧
    statusOf (email_process c9Store "t9" (JVal.obj c9Ekvs)).1 "t9"
      = some "completed" :=
  ⟨rfl, c9_status_discipline defaultSchemas c9Store "t9" c9Kvs c9Ekvs rfl, rfl, rfl, rfl⟩

end DocRoute
